import Mathlib

/-!
# Secure-QR-Code-Generator: payload protocol, embedded and verified

A shallow embedding of the payload protocol of the repository
`Secure-QR-Code-Generator` (canonical source: `src/qr_secure.py`, with the
near-duplicate snapshots `src/qr_generator.py` / `src/qr_verify.py` /
`src/qr_verifier.py`).

Conventions of the embedding:
* Python `bytes` are `List Nat` (each element intended `< 256`; theorems carry
  the bound as a hypothesis where it matters).
* Python `str` is `List Char` internally, Lean `String` at the API boundary.
* Clock reads (`datetime.now(...).isoformat()`) become an explicit `ts`
  argument of the builder.
* Fallible Python code returns `Option`/`Except`; an uncaught Python exception
  is an `Except.error`.  The dynamic text that Python interpolates into error
  messages (`f"Invalid payload: {e}"`) is abstracted to a fixed suffix — the
  claims only depend on the fixed prefix taxonomy.
* Library calls from the Python standard library (`hashlib`, `hmac`, `base64`,
  `json`, `urllib.parse`) are modelled byte-for-byte below, to the extent the
  repository exercises them; leniency corner cases of `binascii` on junk input
  are noted at the definitions.
-/

namespace QRSpec

/-! ## Hex encoding (`bytes.hex()` and friends) -/

/-- Lowercase hex digit for a value `< 16` (as produced by `bytes.hex()`). -/
def hexDigitLower (n : Nat) : Char :=
  if n < 10 then Char.ofNat (48 + n) else Char.ofNat (87 + n)

/-- Uppercase hex digit (as produced by `urllib.parse.quote`). -/
def hexDigitUpper (n : Nat) : Char :=
  if n < 10 then Char.ofNat (48 + n) else Char.ofNat (55 + n)

/-- `bytes.hex()`: two lowercase hex digits per byte. -/
def bytesToHexL (bs : List Nat) : List Char :=
  (bs.map (fun b => [hexDigitLower (b / 16), hexDigitLower (b % 16)])).flatten

/-- Value of a hex digit character (either case), as accepted by `%xx`
unquoting and `\uXXXX` JSON escapes. -/
def hexVal (c : Char) : Option Nat :=
  if 48 ≤ c.toNat ∧ c.toNat ≤ 57 then some (c.toNat - 48)
  else if 97 ≤ c.toNat ∧ c.toNat ≤ 102 then some (c.toNat - 87)
  else if 65 ≤ c.toNat ∧ c.toNat ≤ 70 then some (c.toNat - 55)
  else none

/-! ## Base64 (`base64.b64encode` / `b64decode` / the `urlsafe_` variants) -/

/-- The standard base64 alphabet, by 6-bit value. -/
def b64AlphaChar (n : Nat) : Char :=
  if n < 26 then Char.ofNat (65 + n)
  else if n < 52 then Char.ofNat (97 + (n - 26))
  else if n < 62 then Char.ofNat (48 + (n - 52))
  else if n = 62 then '+'
  else '/'

/-- 6-bit value of a standard-alphabet base64 character. -/
def b64CharVal (c : Char) : Option Nat :=
  if 65 ≤ c.toNat ∧ c.toNat ≤ 90 then some (c.toNat - 65)
  else if 97 ≤ c.toNat ∧ c.toNat ≤ 122 then some (c.toNat - 71)
  else if 48 ≤ c.toNat ∧ c.toNat ≤ 57 then some (c.toNat + 4)
  else if c = '+' then some 62
  else if c = '/' then some 63
  else none

/-- `base64.b64encode`: standard alphabet, `=`-padded. -/
def b64encodeL : List Nat → List Char
  | [] => []
  | [b1] => [b64AlphaChar (b1 / 4), b64AlphaChar (b1 % 4 * 16), '=', '=']
  | [b1, b2] =>
    [b64AlphaChar (b1 / 4), b64AlphaChar (b1 % 4 * 16 + b2 / 16),
     b64AlphaChar (b2 % 16 * 4), '=']
  | b1 :: b2 :: b3 :: rest =>
    b64AlphaChar (b1 / 4) :: b64AlphaChar (b1 % 4 * 16 + b2 / 16) ::
    b64AlphaChar (b2 % 16 * 4 + b3 / 64) :: b64AlphaChar (b3 % 64) ::
    b64encodeL rest

/-- Decode base64 quads after junk characters have been discarded.  Mirrors
non-strict `binascii.a2b_base64`: a final quantum of 2 or 3 data characters
must be completed by `=` padding, a quantum of 1 is an error; surplus input
after complete padding is rejected (CPython tolerates some junk there — none
of the repository's inputs exercise that corner). -/
def b64DecQuads : List Char → Option (List Nat)
  | [] => some []
  | c1 :: c2 :: c3 :: c4 :: rest =>
    match b64CharVal c1, b64CharVal c2 with
    | some v1, some v2 =>
      if c3 = '=' then
        if c4 = '=' ∧ rest = [] then some [v1 * 4 + v2 / 16] else none
      else
        match b64CharVal c3 with
        | some v3 =>
          if c4 = '=' then
            if rest = [] then some [v1 * 4 + v2 / 16, v2 % 16 * 16 + v3 / 4]
            else none
          else
            match b64CharVal c4 with
            | some v4 =>
              (b64DecQuads rest).map
                (fun tl => (v1 * 4 + v2 / 16) :: (v2 % 16 * 16 + v3 / 4) ::
                           (v3 % 4 * 64 + v4) :: tl)
            | none => none
        | none => none
    | _, _ => none
  | _ => none

/-- `base64.b64decode(s)` (default `validate=False`): characters outside the
alphabet and `=` are discarded before decoding. -/
def b64decodeL (cs : List Char) : Option (List Nat) :=
  b64DecQuads (cs.filter (fun c => (b64CharVal c).isSome || c = '='))

/-- `base64.urlsafe_b64encode`: standard encoding, then `+→-`, `/→_`
(`bytes.translate`). -/
def urlsafeB64encodeL (bs : List Nat) : List Char :=
  (b64encodeL bs).map (fun c => if c = '+' then '-' else if c = '/' then '_' else c)

/-- `base64.urlsafe_b64decode` on a `str` argument: implicit `ascii` encode
(non-ASCII raises, modelled as `none`), then `-→+`, `_→/`, then decode. -/
def urlsafeB64decodeL (cs : List Char) : Option (List Nat) :=
  if cs.any (fun c => 127 < c.toNat) then none
  else b64decodeL (cs.map (fun c => if c = '-' then '+' else if c = '_' then '/' else c))

/-! ## UTF-8 (`str.encode('utf-8')` / `bytes.decode('utf-8')`) -/

/-- UTF-8 encoding of one code point. -/
def utf8EncodeChar (c : Char) : List Nat :=
  let n := c.toNat
  if n < 128 then [n]
  else if n < 2048 then [192 + n / 64, 128 + n % 64]
  else if n < 65536 then [224 + n / 4096, 128 + n / 64 % 64, 128 + n % 64]
  else [240 + n / 262144, 128 + n / 4096 % 64, 128 + n / 64 % 64, 128 + n % 64]

/-- `str.encode('utf-8')`. -/
def utf8Encode (s : List Char) : List Nat :=
  (s.map utf8EncodeChar).flatten

/-- Is `b` a UTF-8 continuation byte? -/
def isCont (b : Nat) : Bool := 128 ≤ b && b < 192

/-- One step of strict UTF-8 decoding: the code point at the head of the
byte list and the remaining bytes.  Rejects stray continuation bytes,
overlong forms, surrogates and out-of-range sequences, like CPython. -/
def utf8Split : List Nat → Option (Nat × List Nat)
  | [] => none
  | b :: rest =>
    if b < 128 then some (b, rest)
    else if b < 194 then none
    else if b < 224 then
      match rest with
      | b2 :: r =>
        if isCont b2 then some ((b - 192) * 64 + (b2 - 128), r) else none
      | [] => none
    else if b < 240 then
      match rest with
      | b2 :: b3 :: r =>
        let lo := if b = 224 then 160 else 128
        let hi := if b = 237 then 160 else 192
        if (lo ≤ b2 && b2 < hi) && isCont b3 then
          some ((b - 224) * 4096 + (b2 - 128) * 64 + (b3 - 128), r)
        else none
      | _ => none
    else if b < 245 then
      match rest with
      | b2 :: b3 :: b4 :: r =>
        let lo := if b = 240 then 144 else 128
        let hi := if b = 244 then 144 else 192
        if ((lo ≤ b2 && b2 < hi) && isCont b3) && isCont b4 then
          some ((b - 240) * 262144 + (b2 - 128) * 4096 + (b3 - 128) * 64 + (b4 - 128), r)
        else none
      | _ => none
    else none

/-- Iterate `utf8Split`.  The fuel only bounds the number of decoded code
points; since every successful step consumes at least one byte, fuel equal to
the byte count (as `utf8DecodeL` passes) never runs out. -/
def utf8DecodeGo : Nat → List Nat → Option (List Char)
  | _, [] => some []
  | 0, _ :: _ => none
  | fuel + 1, b :: rest =>
    match utf8Split (b :: rest) with
    | none => none
    | some (n, r) => (utf8DecodeGo fuel r).map (fun cs => Char.ofNat n :: cs)

/-- `bytes.decode('utf-8')` (strict, the default). -/
def utf8DecodeL (bs : List Nat) : Option (List Char) :=
  utf8DecodeGo bs.length bs

/-! ## SHA-256 and HMAC-SHA256 (`hashlib.sha256`, `hmac.new(..., sha256)`) -/

/-- Truncation to a 32-bit word. -/
def w32 (n : Nat) : Nat := n % 4294967296

/-- 32-bit right rotation. -/
def rotr (k x : Nat) : Nat := w32 ((x >>> k) ||| (x <<< (32 - k)))

def bsig0 (x : Nat) : Nat := rotr 2 x ^^^ rotr 13 x ^^^ rotr 22 x
def bsig1 (x : Nat) : Nat := rotr 6 x ^^^ rotr 11 x ^^^ rotr 25 x
def ssig0 (x : Nat) : Nat := rotr 7 x ^^^ rotr 18 x ^^^ (x >>> 3)
def ssig1 (x : Nat) : Nat := rotr 17 x ^^^ rotr 19 x ^^^ (x >>> 10)
def chFun (x y z : Nat) : Nat := (x &&& y) ^^^ ((x ^^^ 4294967295) &&& z)
def majFun (x y z : Nat) : Nat := (x &&& y) ^^^ (x &&& z) ^^^ (y &&& z)

/-- The SHA-256 round constants. -/
def sha256K : List Nat :=
  [1116352408, 1899447441, 3049323471, 3921009573, 961987163, 1508970993,
   2453635748, 2870763221, 3624381080, 310598401, 607225278, 1426881987,
   1925078388, 2162078206, 2614888103, 3248222580, 3835390401, 4022224774,
   264347078, 604807628, 770255983, 1249150122, 1555081692, 1996064986,
   2554220882, 2821834349, 2952996808, 3210313671, 3336571891, 3584528711,
   113926993, 338241895, 666307205, 773529912, 1294757372, 1396182291,
   1695183700, 1986661051, 2177026350, 2456956037, 2730485921, 2820302411,
   3259730800, 3345764771, 3516065817, 3600352804, 4094571909, 275423344,
   430227734, 506948616, 659060556, 883997877, 958139571, 1322822218,
   1537002063, 1747873779, 1955562222, 2024104815, 2227730452, 2361852424,
   2428436474, 2756734187, 3204031479, 3329325298]

/-- The SHA-256 working state. -/
structure Sha256State where
  a : Nat
  b : Nat
  c : Nat
  d : Nat
  e : Nat
  f : Nat
  g : Nat
  h : Nat

/-- The SHA-256 initial hash value. -/
def sha256H0 : Sha256State :=
  ⟨1779033703, 3144134277, 1013904242, 2773480762,
   1359893119, 2600822924, 528734635, 1541459225⟩

/-- `k` bytes of `n`, big-endian. -/
def beBytes : Nat → Nat → List Nat
  | 0, _ => []
  | k + 1, n => beBytes k (n / 256) ++ [n % 256]

/-- SHA-256 padding: `0x80`, zeros to 56 mod 64, then the 64-bit bit length. -/
def sha256Pad (msg : List Nat) : List Nat :=
  msg ++ 128 :: List.replicate ((119 - msg.length % 64) % 64) 0 ++
    beBytes 8 (8 * msg.length)

/-- Big-endian 32-bit words from bytes. -/
def bytesToWords : List Nat → List Nat
  | b1 :: b2 :: b3 :: b4 :: rest =>
    (((b1 * 256 + b2) * 256 + b3) * 256 + b4) :: bytesToWords rest
  | _ => []

/-- Extend the 16 block words to the 64-entry message schedule. -/
def sha256Schedule (ws : List Nat) : List Nat :=
  (List.range 48).foldl
    (fun acc _ =>
      acc ++ [w32 (ssig1 (acc.getD (acc.length - 2) 0) + acc.getD (acc.length - 7) 0 +
                   ssig0 (acc.getD (acc.length - 15) 0) + acc.getD (acc.length - 16) 0)])
    ws

/-- One SHA-256 compression round. -/
def sha256Round (w k : Nat) (s : Sha256State) : Sha256State :=
  let t1 := w32 (s.h + bsig1 s.e + chFun s.e s.f s.g + k + w)
  let t2 := w32 (bsig0 s.a + majFun s.a s.b s.c)
  ⟨w32 (t1 + t2), s.a, s.b, s.c, w32 (s.d + t1), s.e, s.f, s.g⟩

/-- Compress one 64-byte block into the running hash state. -/
def sha256Compress (hs : Sha256State) (block : List Nat) : Sha256State :=
  let w := sha256Schedule (bytesToWords block)
  let s := (List.range 64).foldl
    (fun st i => sha256Round (w.getD i 0) (sha256K.getD i 0) st) hs
  ⟨w32 (hs.a + s.a), w32 (hs.b + s.b), w32 (hs.c + s.c), w32 (hs.d + s.d),
   w32 (hs.e + s.e), w32 (hs.f + s.f), w32 (hs.g + s.g), w32 (hs.h + s.h)⟩

/-- Split into 64-byte blocks (the fuel, set to the byte count, never runs
out because every step consumes at least one byte). -/
def chunks64Go : Nat → List Nat → List (List Nat)
  | _, [] => []
  | 0, _ :: _ => []
  | fuel + 1, b :: rest => (b :: rest).take 64 :: chunks64Go fuel ((b :: rest).drop 64)

/-- Split into 64-byte blocks. -/
def chunks64 (l : List Nat) : List (List Nat) := chunks64Go l.length l

/-- `hashlib.sha256(data).digest()`. -/
def sha256 (msg : List Nat) : List Nat :=
  let hs := (chunks64 (sha256Pad msg)).foldl sha256Compress sha256H0
  beBytes 4 hs.a ++ beBytes 4 hs.b ++ beBytes 4 hs.c ++ beBytes 4 hs.d ++
  beBytes 4 hs.e ++ beBytes 4 hs.f ++ beBytes 4 hs.g ++ beBytes 4 hs.h

/-- HMAC-SHA256 over byte lists (`hmac.new(key, data, hashlib.sha256)`,
block size 64). -/
def hmacSha256 (key msg : List Nat) : List Nat :=
  let k0 := if 64 < key.length then sha256 key else key
  let kp := k0 ++ List.replicate (64 - k0.length) 0
  sha256 ((kp.map (fun b => b ^^^ 92)) ++ sha256 ((kp.map (fun b => b ^^^ 54)) ++ msg))

/-- `crypto_utils.compute_hash` / `qr_secure.compute_hash`:
SHA-256 digest bytes. -/
def compute_hash (data : List Nat) : List Nat := sha256 data

/-- `crypto_utils.compute_hmac` / `qr_secure.compute_hmac`:
HMAC-SHA256 bytes with a UTF-8 encoded string key. -/
def compute_hmac (data : List Nat) (key : String) : List Nat :=
  hmacSha256 (utf8Encode key.data) data

/-! ## JSON (`json.dumps(..., separators=(',', ':'))` and `json.loads`)

Numbers: the protocol only ever writes the integer `1`, and the verifier never
does arithmetic on a parsed number, so integer literals are parsed exactly
(`Json.num`) while fractional/exponent/`NaN`/`Infinity` literals are carried
as their source text (`Json.numF`) — only their truthiness is ever consulted.
Python strings may hold lone surrogates (via `\uXXXX` escapes); Lean `Char`
cannot, so those map through `Char.ofNat`'s total fallback — no claim
exercises them. -/

/-- A parsed Python `json` value. -/
inductive Json where
  | null : Json
  | bool : Bool → Json
  | num : Int → Json
  | numF : List Char → Json
  | str : List Char → Json
  | arr : List Json → Json
  | obj : List (List Char × Json) → Json
deriving Repr, BEq

/-- `dict.get` on a parsed JSON object: later duplicate keys shadow earlier
ones, exactly as `json.loads` builds its `dict`; `none` is Python `None` for
an absent key. -/
def pyGet (fs : List (List Char × Json)) (k : List Char) : Option Json :=
  fs.foldl (fun acc p => if p.1 = k then some p.2 else acc) none

/-- Is a float literal's mantissa all zeros (so the float equals `0.0`)?
Used only for truthiness of `Json.numF`. -/
def floatLitZero (l : List Char) : Bool :=
  (l.takeWhile (fun c => c ≠ 'e' ∧ c ≠ 'E')).all
    (fun c => c = '0' ∨ c = '.' ∨ c = '-' ∨ c = '+')

/-- Python truthiness of a JSON value (`bool(x)`). -/
def Json.truthy : Json → Bool
  | .null => false
  | .bool b => b
  | .num n => n ≠ 0
  | .numF l => !floatLitZero l
  | .str s => !s.isEmpty
  | .arr xs => !xs.isEmpty
  | .obj fs => !fs.isEmpty

/-- Truthiness of a `dict.get` result (`None` for a missing key is falsy). -/
def optTruthy : Option Json → Bool
  | none => false
  | some j => j.truthy

/-- Four lowercase hex digits, as in Python's `\uXXXX` escapes. -/
def hex4Lower (n : Nat) : List Char :=
  [hexDigitLower (n / 4096 % 16), hexDigitLower (n / 256 % 16),
   hexDigitLower (n / 16 % 16), hexDigitLower (n % 16)]

/-- `json.dumps` escaping of one character (`ensure_ascii=True`, the default):
everything outside `0x20..0x7e` is escaped, `"` and `\` always. -/
def jsonEscChar (c : Char) : List Char :=
  if c = '"' then ['\\', '"']
  else if c = '\\' then ['\\', '\\']
  else if c = Char.ofNat 8 then ['\\', 'b']
  else if c = Char.ofNat 9 then ['\\', 't']
  else if c = Char.ofNat 10 then ['\\', 'n']
  else if c = Char.ofNat 12 then ['\\', 'f']
  else if c = Char.ofNat 13 then ['\\', 'r']
  else if c.toNat < 32 then '\\' :: 'u' :: hex4Lower c.toNat
  else if c.toNat ≤ 126 then [c]
  else if c.toNat < 65536 then '\\' :: 'u' :: hex4Lower c.toNat
  else
    '\\' :: 'u' :: hex4Lower (55296 + (c.toNat - 65536) / 1024) ++
    '\\' :: 'u' :: hex4Lower (56320 + (c.toNat - 65536) % 1024)

/-- `json.dumps` of a string. -/
def dumpJStr (s : List Char) : List Char :=
  '"' :: (s.map jsonEscChar).flatten ++ ['"']

mutual

/-- `json.dumps(v, separators=(',', ':'))`: compact encoding, insertion
order preserved. -/
def jsonDumps : Json → List Char
  | .null => 'n' :: 'u' :: 'l' :: 'l' :: []
  | .bool true => 't' :: 'r' :: 'u' :: 'e' :: []
  | .bool false => 'f' :: 'a' :: 'l' :: 's' :: 'e' :: []
  | .num n => (toString n).data
  | .numF l => l
  | .str s => dumpJStr s
  | .arr xs => '[' :: dumpsItems xs ++ [']']
  | .obj fs => '\x7b' :: dumpsFields fs ++ ['\x7d']

def dumpsItems : List Json → List Char
  | [] => []
  | [x] => jsonDumps x
  | x :: y :: xs => jsonDumps x ++ ',' :: dumpsItems (y :: xs)

def dumpsFields : List (List Char × Json) → List Char
  | [] => []
  | [(k, v)] => dumpJStr k ++ ':' :: jsonDumps v
  | (k, v) :: f :: fs => dumpJStr k ++ ':' :: jsonDumps v ++ ',' :: dumpsFields (f :: fs)

end

/-- JSON whitespace. -/
def isJsonWs (c : Char) : Bool := c = ' ' || c = Char.ofNat 9 || c = Char.ofNat 10 || c = Char.ofNat 13

/-- Skip JSON whitespace. -/
def skipWs (s : List Char) : List Char := s.dropWhile isJsonWs

/-- Parse the body of a JSON string after the opening quote into raw code
units: two-character escapes, `\uXXXX` kept as its 16-bit unit, raw control
characters rejected (`json.loads` default strict mode). -/
def parseJStrRaw : List Char → Option (List Nat × List Char)
  | [] => none
  | c :: rest =>
    if c = '"' then some ([], rest)
    else if c = '\\' then
      match rest with
      | [] => none
      | e :: r2 =>
        if e = 'u' then
          match r2 with
          | h1 :: h2 :: h3 :: h4 :: r3 =>
            match hexVal h1, hexVal h2, hexVal h3, hexVal h4 with
            | some a, some b, some c', some d =>
              (parseJStrRaw r3).map
                (fun p => ((((a * 16 + b) * 16 + c') * 16 + d) :: p.1, p.2))
            | _, _, _, _ => none
          | _ => none
        else
          match
            (if e = '"' then some 34
             else if e = '\\' then some 92
             else if e = '/' then some 47
             else if e = 'b' then some 8
             else if e = 'f' then some 12
             else if e = 'n' then some 10
             else if e = 'r' then some 13
             else if e = 't' then some 9
             else none) with
          | some u => (parseJStrRaw r2).map (fun p => (u :: p.1, p.2))
          | none => none
    else if c.toNat < 32 then none
    else (parseJStrRaw rest).map (fun p => (c.toNat :: p.1, p.2))

/-- Combine adjacent UTF-16 surrogate pairs produced by `\uXXXX` escapes into
one code point, as `json.loads` does.  (A lone surrogate survives as its unit
value; Lean's `Char.ofNat` maps such invalid scalars to `'\0'` — Python keeps
the lone surrogate, a representational corner no claim exercises.) -/
def combineSurrogates : List Nat → List Nat
  | [] => []
  | [n] => [n]
  | n1 :: n2 :: rest =>
    if (55296 ≤ n1 ∧ n1 < 56320) ∧ (56320 ≤ n2 ∧ n2 < 57344) then
      (65536 + (n1 - 55296) * 1024 + (n2 - 56320)) :: combineSurrogates rest
    else n1 :: combineSurrogates (n2 :: rest)

/-- Parse the body of a JSON string after the opening quote. -/
def parseJStrBody (s : List Char) : Option (List Char × List Char) :=
  (parseJStrRaw s).map (fun p => ((combineSurrogates p.1).map Char.ofNat, p.2))

/-- Is `c` an ASCII digit? -/
def isDigitChar (c : Char) : Bool := 48 ≤ c.toNat && c.toNat ≤ 57

/-- Integer value of a digit list. -/
def natOfDigits (ds : List Char) : Nat :=
  ds.foldl (fun acc c => acc * 10 + (c.toNat - 48)) 0

/-- Parse a JSON number at the head of `s` (which starts with `-` or a
digit), per Python's `NUMBER_RE`: `(-?(?:0|[1-9]\d*))(\.\d+)?([eE][-+]?\d+)?`.
Plain integers become `Json.num`; anything with a fraction or exponent
becomes a `Json.numF` carrying its literal text. -/
def parseNumber (s : List Char) : Option (Json × List Char) :=
  let (negPre, s1) : List Char × List Char :=
    match s with
    | '-' :: r => (['-'], r)
    | _ => ([], s)
  let (ds, r1) : List Char × List Char :=
    match s1 with
    | '0' :: r => (['0'], r)
    | _ => (s1.takeWhile isDigitChar, s1.dropWhile isDigitChar)
  if ds = [] then none
  else
    let intPart : Int := Int.ofNat (natOfDigits ds)
    let intVal : Int := if negPre = [] then intPart else -intPart
    match r1 with
    | '.' :: r2 =>
      let fs := r2.takeWhile isDigitChar
      let r3 := r2.dropWhile isDigitChar
      if fs = [] then none
      else
        match r3 with
        | e :: r4 =>
          if e = 'e' ∨ e = 'E' then
            let (sgn, r5) : List Char × List Char :=
              match r4 with
              | '+' :: r => (['+'], r)
              | '-' :: r => (['-'], r)
              | _ => ([], r4)
            let es := r5.takeWhile isDigitChar
            let r6 := r5.dropWhile isDigitChar
            if es = [] then none
            else some (.numF (negPre ++ ds ++ '.' :: fs ++ e :: sgn ++ es), r6)
          else some (.numF (negPre ++ ds ++ '.' :: fs), r3)
        | [] => some (.numF (negPre ++ ds ++ '.' :: fs), [])
    | e :: r2 =>
      if e = 'e' ∨ e = 'E' then
        let (sgn, r3) : List Char × List Char :=
          match r2 with
          | '+' :: r => (['+'], r)
          | '-' :: r => (['-'], r)
          | _ => ([], r2)
        let es := r3.takeWhile isDigitChar
        let r4 := r3.dropWhile isDigitChar
        if es = [] then none
        else some (.numF (negPre ++ ds ++ e :: sgn ++ es), r4)
      else some (.num intVal, r1)
    | [] => some (.num intVal, [])

mutual

/-- Fuel-indexed recursive-descent parser for one JSON value, mirroring
`json.loads` grammar decisions (including the `NaN`/`Infinity` extensions).
Fuel decreases at each nesting level and at each object member / array item;
`s.length + 1` is always sufficient. -/
def parseJson : Nat → List Char → Option (Json × List Char)
  | 0, _ => none
  | fuel + 1, s =>
    match skipWs s with
    | [] => none
    | c :: rest =>
      if c = '\x7b' then
        match skipWs rest with
        | '\x7d' :: r => some (.obj [], r)
        | _ => (parseMembers fuel rest).map (fun p => (.obj p.1, p.2))
      else if c = '[' then
        match skipWs rest with
        | ']' :: r => some (.arr [], r)
        | _ => (parseItems fuel rest).map (fun p => (.arr p.1, p.2))
      else if c = '"' then
        (parseJStrBody rest).map (fun p => (.str p.1, p.2))
      else if c = 't' then
        match rest with
        | 'r' :: 'u' :: 'e' :: r => some (.bool true, r)
        | _ => none
      else if c = 'f' then
        match rest with
        | 'a' :: 'l' :: 's' :: 'e' :: r => some (.bool false, r)
        | _ => none
      else if c = 'n' then
        match rest with
        | 'u' :: 'l' :: 'l' :: r => some (.null, r)
        | _ => none
      else if c = 'N' then
        match rest with
        | 'a' :: 'N' :: r => some (.numF ('N' :: 'a' :: 'N' :: []), r)
        | _ => none
      else if c = 'I' then
        match rest with
        | 'n' :: 'f' :: 'i' :: 'n' :: 'i' :: 't' :: 'y' :: r =>
          some (.numF "Infinity".data, r)
        | _ => none
      else if c = '-' then
        match rest with
        | 'I' :: 'n' :: 'f' :: 'i' :: 'n' :: 'i' :: 't' :: 'y' :: r =>
          some (.numF "-Infinity".data, r)
        | _ => parseNumber (c :: rest)
      else if isDigitChar c then parseNumber (c :: rest)
      else none

/-- Parse the members of a nonempty JSON object, after the opening brace. -/
def parseMembers : Nat → List Char → Option (List (List Char × Json) × List Char)
  | 0, _ => none
  | fuel + 1, s =>
    match skipWs s with
    | '"' :: r1 =>
      match parseJStrBody r1 with
      | some (k, r2) =>
        match skipWs r2 with
        | ':' :: r3 =>
          match parseJson fuel r3 with
          | some (v, r4) =>
            match skipWs r4 with
            | ',' :: r5 => (parseMembers fuel r5).map (fun p => ((k, v) :: p.1, p.2))
            | '\x7d' :: r5 => some ([(k, v)], r5)
            | _ => none
          | none => none
        | _ => none
      | none => none
    | _ => none

/-- Parse the items of a nonempty JSON array, after the opening bracket. -/
def parseItems : Nat → List Char → Option (List Json × List Char)
  | 0, _ => none
  | fuel + 1, s =>
    match parseJson fuel s with
    | some (v, r) =>
      match skipWs r with
      | ',' :: r2 => (parseItems fuel r2).map (fun p => (v :: p.1, p.2))
      | ']' :: r2 => some ([v], r2)
      | _ => none
    | none => none

end

/-- `json.loads` on a string: one value, optional surrounding whitespace,
nothing after it. -/
def jsonLoadsChars (s : List Char) : Option Json :=
  match parseJson (s.length + 1) s with
  | some (v, r) => if skipWs r = [] then some v else none
  | none => none

/-- `json.loads` on `bytes`: UTF-8 decode (the repository's payloads are
always UTF-8; the UTF-16/32 auto-detection of `json.detect_encoding` is out
of the modelled fragment), then parse. -/
def jsonLoadsBytes (bs : List Nat) : Option Json :=
  (utf8DecodeL bs).bind jsonLoadsChars

/-! ## The payload protocol (`qr_secure.py`) -/

/-- `base64.b64decode` on a `str` argument: the implicit `ascii` encode
rejects non-ASCII input before the lenient decode. -/
def b64decodeStr (cs : List Char) : Option (List Nat) :=
  if cs.any (fun c => 127 < c.toNat) then none else b64decodeL cs

/-- Python truthiness of the optional secret key (`if key:` — `None` and the
empty string are both falsy). -/
def keyTruthy : Option String → Bool
  | none => false
  | some k => !k.isEmpty

/-- The "try UTF-8, else represent as base64 text" message recovery used by
the verifier (lines 144-148 of `qr_secure.py`). -/
def textOrB64 (message_bytes : List Nat) : String :=
  match utf8DecodeL message_bytes with
  | some cs => ⟨cs⟩
  | none => ⟨b64encodeL message_bytes⟩

/-- `str(x)` of a parsed JSON value, for the `f"Unknown mode: {mode}"`
reason (container `repr` output abbreviated — no claim depends on it). -/
def pyStrOfJson : Json → List Char
  | .null => "None".data
  | .bool true => "True".data
  | .bool false => "False".data
  | .num n => (toString n).data
  | .numF l => l
  | .str s => s
  | .arr _ => "<list>".data
  | .obj _ => "<dict>".data

/-- Python `type(x).__name__` for a parsed JSON value. -/
def pyTypeName : Json → String
  | .null => "NoneType"
  | .bool _ => "bool"
  | .num _ => "int"
  | .numF _ => "float"
  | .str _ => "str"
  | .arr _ => "list"
  | .obj _ => "dict"

/-- The verifier's result tuple
`(valid: bool, message: str|None, meta: dict|None, reason: str|None)`;
`meta`, when present, is the pair `("mode" value, "ts" value-or-None)`. -/
structure Verdict where
  valid : Bool
  message : Option String
  meta : Option (Json × Option Json)
  reason : Option String
deriving Repr, BEq

/-- The body of `qr_secure.verify_payload` after the envelope has been parsed
and the four fields extracted (`payload.get(...)` results).  Mirrors lines
129-169: the `all([...])` truthiness gate, inner base64 decode, best-effort
message recovery, then mode dispatch.  A non-string where Python would raise
a caught `TypeError` (inside `base64.b64decode`) takes the same error arm as
a decode failure, exactly as the `except Exception` does. -/
def verify_fields (mode mac_field msg_b64 ts : Option Json) (key : Option String) : Verdict :=
  if !(optTruthy mode && optTruthy mac_field && optTruthy msg_b64) then
    ⟨false, none, none, some "Missing fields in payload"⟩
  else
    match msg_b64 with
    | some (Json.str ms) =>
      match b64decodeStr ms with
      | some message_bytes =>
        let meta : Json × Option Json := (mode.getD Json.null, ts)
        let message := textOrB64 message_bytes
        match mode with
        | some (Json.str m) =>
          if m = "hmac".data then
            if !keyTruthy key then
              ⟨false, none, none, some "HMAC key required for verification"⟩
            else
              match mac_field with
              | some (Json.str macs) =>
                match b64decodeStr macs with
                | some provided =>
                  if compute_hmac message_bytes (key.getD "") = provided then
                    ⟨true, some message, some meta, none⟩
                  else
                    ⟨false, some message, some meta,
                     some "HMAC mismatch - wrong key or tampered"⟩
                | none => ⟨false, none, none, some "Invalid HMAC encoding"⟩
              | _ => ⟨false, none, none, some "Invalid HMAC encoding"⟩
          else if m = "hash".data then
            match mac_field with
            | some (Json.str macs) =>
              if macs = bytesToHexL (compute_hash message_bytes) then
                ⟨true, some message, some meta, none⟩
              else
                ⟨false, some message, some meta, some "Hash mismatch - content tampered"⟩
            | _ => ⟨false, some message, some meta, some "Hash mismatch - content tampered"⟩
          else
            ⟨false, none, none, some (String.mk ("Unknown mode: ".data ++ m))⟩
        | other =>
          ⟨false, none, none,
           some (String.mk ("Unknown mode: ".data ++
             pyStrOfJson (other.getD Json.null)))⟩
      | none => ⟨false, none, none, some "Message decode failed: invalid base64"⟩
    | _ => ⟨false, none, none, some "Message decode failed: not a string"⟩

/-- `qr_secure.verify_payload` applied to an already-parsed JSON document.
`payload.get('mode')` on a non-`dict` raises an `AttributeError` that no
`try` in the source catches — modelled as `Except.error`. -/
def verify_parsed (payload : Json) (key : Option String) : Except String Verdict :=
  match payload with
  | Json.obj fs =>
    .ok (verify_fields (pyGet fs "mode".data) (pyGet fs "mac".data)
          (pyGet fs "msg_b64".data) (pyGet fs "ts".data) key)
  | other =>
    .error ("AttributeError: " ++ pyTypeName other ++ " object has no attribute get")

/-- `qr_secure.verify_payload` (lines 118-169).  The `try` around the outer
base64 decode and `json.loads` resolves both failures to the
`"Invalid payload: ..."` verdict (the interpolated exception text is
abstracted to a fixed suffix). -/
def verify_payload (payload_b64 : String) (key : Option String) : Except String Verdict :=
  match urlsafeB64decodeL payload_b64.data with
  | none => .ok ⟨false, none, none, some "Invalid payload: outer decode error"⟩
  | some j =>
    match jsonLoadsBytes j with
    | none => .ok ⟨false, none, none, some "Invalid payload: JSON parse error"⟩
    | some payload => verify_parsed payload key

/-- The five-field envelope dict built by `qr_secure._make_payload_bytes`
(lines 36-50), with the clock read as an explicit `ts` argument. -/
def payloadJson (message_bytes : List Nat) (key : Option String) (ts : String) : Json :=
  if keyTruthy key then
    Json.obj [("v".data, Json.num 1), ("mode".data, Json.str "hmac".data),
              ("mac".data, Json.str (b64encodeL (compute_hmac message_bytes (key.getD "")))),
              ("msg_b64".data, Json.str (b64encodeL message_bytes)),
              ("ts".data, Json.str ts.data)]
  else
    Json.obj [("v".data, Json.num 1), ("mode".data, Json.str "hash".data),
              ("mac".data, Json.str (bytesToHexL (compute_hash message_bytes))),
              ("msg_b64".data, Json.str (b64encodeL message_bytes)),
              ("ts".data, Json.str ts.data)]

/-- `qr_secure._make_payload_bytes` (lines 36-52): serialize the envelope
compactly, UTF-8 encode, URL-safe base64 encode. -/
def make_payload_bytes (message_bytes : List Nat) (key : Option String) (ts : String) : String :=
  ⟨urlsafeB64encodeL (utf8Encode (jsonDumps (payloadJson message_bytes key ts)))⟩

/-! ## URLs (the `urllib.parse` fragment the repository uses) -/

def isAsciiAlpha (c : Char) : Bool :=
  (65 ≤ c.toNat && c.toNat ≤ 90) || (97 ≤ c.toNat && c.toNat ≤ 122)

def isAsciiDigit (c : Char) : Bool := 48 ≤ c.toNat && c.toNat ≤ 57

/-- ASCII lowercasing (scheme characters are ASCII-checked before
`str.lower()` is applied). -/
def asciiLower (c : Char) : Char :=
  if 65 ≤ c.toNat ∧ c.toNat ≤ 90 then Char.ofNat (c.toNat + 32) else c

/-- `urllib.parse.scheme_chars`. -/
def isSchemeChar (c : Char) : Bool :=
  isAsciiAlpha c || isAsciiDigit c || c == '+' || c == '-' || c == '.'

/-- The result of `urllib.parse.urlparse`. -/
structure UrlParts where
  scheme : List Char
  netloc : List Char
  path : List Char
  params : List Char
  query : List Char
  fragment : List Char
deriving Repr, BEq, DecidableEq

/-- `urllib.parse._splitparams`: split path parameters after the last `/`. -/
def splitparams (path : List Char) : List Char × List Char :=
  if path.contains '/' then
    let seg := (path.reverse.takeWhile (fun c => !(c == '/'))).reverse
    if seg.contains ';' then
      (path.take (path.length - seg.length) ++ seg.takeWhile (fun c => !(c == ';')),
       (seg.dropWhile (fun c => !(c == ';'))).tail)
    else (path, [])
  else
    if path.contains ';' then
      (path.takeWhile (fun c => !(c == ';')), (path.dropWhile (fun c => !(c == ';'))).tail)
    else (path, [])

/-- `urllib.parse.urlparse` (via `urlsplit`): strip `\t\r\n`, split scheme
(lowercased), `//netloc`, fragment, query, and path parameters.  A netloc
with unbalanced square brackets raises `ValueError("Invalid IPv6 URL")`;
the bracketed-host validation CPython ≥ 3.11 added on top is outside the
modelled fragment (no claim feeds a bracketed host). -/
def urlparseE (input : List Char) : Except String UrlParts :=
  let url := input.filter (fun c => !(c == Char.ofNat 9) && !(c == Char.ofNat 13) && !(c == Char.ofNat 10))
  let pre := url.takeWhile (fun c => !(c == ':'))
  let schemeRest : List Char × List Char :=
    if pre.length < url.length && !pre.isEmpty &&
       (match pre with | c :: _ => isAsciiAlpha c | [] => false) && pre.all isSchemeChar
    then (pre.map asciiLower, url.drop (pre.length + 1))
    else ([], url)
  let scheme := schemeRest.1
  let netlocRest : List Char × List Char :=
    match schemeRest.2 with
    | '/' :: '/' :: r =>
      (r.takeWhile (fun c => !(c == '/') && !(c == '?') && !(c == '#')),
       r.dropWhile (fun c => !(c == '/') && !(c == '?') && !(c == '#')))
    | other => ([], other)
  let netloc := netlocRest.1
  if (netloc.contains '[' && !netloc.contains ']') ||
     (netloc.contains ']' && !netloc.contains '[') then
    .error "Invalid IPv6 URL"
  else
    let rest2 := netlocRest.2
    let restFrag : List Char × List Char :=
      if rest2.contains '#' then
        (rest2.takeWhile (fun c => !(c == '#')), (rest2.dropWhile (fun c => !(c == '#'))).tail)
      else (rest2, [])
    let pathQuery : List Char × List Char :=
      if restFrag.1.contains '?' then
        (restFrag.1.takeWhile (fun c => !(c == '?')),
         (restFrag.1.dropWhile (fun c => !(c == '?'))).tail)
      else (restFrag.1, [])
    let pp := splitparams pathQuery.1
    .ok ⟨scheme, netloc, pp.1, pp.2, pathQuery.2, restFrag.2⟩

/-- `str.split(sep)`: keeps empty pieces, `[""]` for the empty string. -/
def splitSep (sep : Char) : List Char → List (List Char)
  | [] => [[]]
  | c :: rest =>
    let r := splitSep sep rest
    if c = sep then [] :: r
    else
      match r with
      | h :: t => (c :: h) :: t
      | [] => [[c]]

/-- `bytes.decode('utf-8', errors='replace')`, total: an undecodable lead
byte becomes U+FFFD and scanning resumes at the following byte. -/
def utf8DecodeReplaceGo : Nat → List Nat → List Char
  | _, [] => []
  | 0, _ :: _ => []
  | fuel + 1, b :: rest =>
    match utf8Split (b :: rest) with
    | some (n, r) => Char.ofNat n :: utf8DecodeReplaceGo fuel r
    | none => '�' :: utf8DecodeReplaceGo fuel rest

/-- `bytes.decode('utf-8', errors='replace')`. -/
def utf8DecodeReplace (bs : List Nat) : List Char :=
  utf8DecodeReplaceGo bs.length bs

/-- Worker for `urllib.parse.unquote`: `%xx` hex pairs accumulate into byte
runs that are UTF-8 decoded with `errors='replace'`; a `%` not followed by
two hex digits is literal. -/
def unquoteGo : Nat → List Char → List Nat → List Char
  | _, [], acc => utf8DecodeReplace acc
  | 0, _ :: _, acc => utf8DecodeReplace acc
  | fuel + 1, c :: rest, acc =>
    if c = '%' then
      match rest with
      | h1 :: h2 :: r2 =>
        match hexVal h1, hexVal h2 with
        | some a, some b => unquoteGo fuel r2 (acc ++ [a * 16 + b])
        | _, _ => utf8DecodeReplace acc ++ '%' :: unquoteGo fuel (h1 :: h2 :: r2) []
      | [] => utf8DecodeReplace acc ++ ['%']
      | [h1] => utf8DecodeReplace acc ++ '%' :: unquoteGo fuel [h1] []
    else utf8DecodeReplace acc ++ c :: unquoteGo fuel rest []

/-- `urllib.parse.unquote`. -/
def unquoteL (s : List Char) : List Char := unquoteGo s.length s []

/-- The `.replace('+', ' ')` applied by `parse_qsl` before unquoting. -/
def plusToSpace (s : List Char) : List Char :=
  s.map (fun c => if c = '+' then ' ' else c)

/-- `urllib.parse.parse_qsl` with its defaults (`keep_blank_values=False`,
separator `&`): empty chunks, chunks without `=`, and chunks with an empty
value are all dropped; names and values are `+`-to-space and `%xx` decoded. -/
def parse_qslL (qs : List Char) : List (List Char × List Char) :=
  (splitSep '&' qs).filterMap (fun nv =>
    if nv.isEmpty then none
    else
      let name := nv.takeWhile (fun c => !(c == '='))
      if name.length = nv.length then none
      else
        let value := nv.drop (name.length + 1)
        if value.isEmpty then none
        else some (unquoteL (plusToSpace name), unquoteL (plusToSpace value)))

/-- `urllib.parse.parse_qs`: group `parse_qsl` pairs into a dict of value
lists, first-occurrence key order. -/
def parse_qsL (qs : List Char) : List (List Char × List (List Char)) :=
  (parse_qslL qs).foldl
    (fun d kv =>
      if d.any (fun p => p.1 = kv.1) then
        d.map (fun p => if p.1 = kv.1 then (p.1, p.2 ++ [kv.2]) else p)
      else d ++ [(kv.1, [kv.2])])
    []

/-- Build a Python `dict` from pairs: insertion order, later values
overwrite in place (`dict(parse_qsl(...))`). -/
def dictOfPairs (pairs : List (List Char × List Char)) : List (List Char × List Char) :=
  pairs.foldl
    (fun d kv =>
      if d.any (fun p => p.1 = kv.1) then
        d.map (fun p => if p.1 = kv.1 then (p.1, kv.2) else p)
      else d ++ [kv])
    []

/-- `d[k] = v` on the ordered dict. -/
def dictSet (d : List (List Char × List Char)) (k v : List Char) :
    List (List Char × List Char) :=
  if d.any (fun p => p.1 = k) then d.map (fun p => if p.1 = k then (p.1, v) else p)
  else d ++ [(k, v)]

/-- The characters `urllib.parse.quote` never escapes (`safe=''`, as
`urlencode` passes). -/
def isAlwaysSafe (c : Char) : Bool :=
  isAsciiAlpha c || isAsciiDigit c || c == '_' || c == '.' || c == '-' || c == '~'

/-- `urllib.parse.quote_plus(s, safe='')`: safe characters verbatim, space
to `+`, everything else UTF-8 percent-encoded with uppercase hex. -/
def quotePlusL (s : List Char) : List Char :=
  (s.map (fun c =>
    if isAlwaysSafe c then [c]
    else if c = ' ' then ['+']
    else ((utf8EncodeChar c).map (fun b => ['%', hexDigitUpper (b / 16), hexDigitUpper (b % 16)])).flatten)).flatten

/-- `urllib.parse.urlencode` on an ordered dict. -/
def urlencodeL (d : List (List Char × List Char)) : List Char :=
  ((d.map (fun p => quotePlusL p.1 ++ '=' :: quotePlusL p.2)).intersperse ['&']).flatten

/-- `urllib.parse.urlunparse` (via `urlunsplit`). -/
def urlunparseL (u : UrlParts) : List Char :=
  let url0 := if u.params.isEmpty then u.path else u.path ++ ';' :: u.params
  let url1 :=
    if !u.netloc.isEmpty || url0.take 2 = ['/', '/'] then
      '/' :: '/' :: u.netloc ++
        (if !url0.isEmpty && !(url0.head? == some '/') then '/' :: url0 else url0)
    else url0
  let url2 := if !u.scheme.isEmpty then u.scheme ++ ':' :: url1 else url1
  let url3 := if !u.query.isEmpty then url2 ++ '?' :: u.query else url2
  if !u.fragment.isEmpty then url3 ++ '#' :: u.fragment else url3

/-- `qr_secure._embed_payload_in_url` (lines 54-59): re-parse the URL, load
its query into a dict, set `data`, re-encode.  A `ValueError` from `urlparse`
propagates (nothing catches it on the build path). -/
def embed_payload_in_url (url : String) (payload_b64 : String) : Except String String :=
  match urlparseE url.data with
  | .error e => .error e
  | .ok p =>
    .ok ⟨urlunparseL ⟨p.scheme, p.netloc, p.path, p.params,
          urlencodeL (dictSet (dictOfPairs (parse_qslL p.query)) "data".data payload_b64.data),
          p.fragment⟩⟩

/-- The input-normalization step of `qr_secure.decode_qr_image`
(lines 107-116): the image decode itself is an external collaborator; given
the raw scanned string, extract the `data` query parameter when the string
is an `http(s)` URL carrying one, else fall back to the raw string.  The
`except Exception: pass` around the URL parse maps a parse error to the
fallback. -/
def decode_qr_extract (raw : String) : String :=
  match urlparseE raw.data with
  | .error _ => raw
  | .ok p =>
    if p.scheme = "http".data ∨ p.scheme = "https".data then
      match (parse_qsL p.query).find? (fun q => q.1 = "data".data) with
      | some (_, v :: _) => ⟨v⟩
      | some (_, []) => raw
      | none => raw
    else raw

/-! ## Statement-level predicates -/

/-- Well-formed byte sequence: what Python's `bytes` guarantees by type. -/
def ByteOK (bs : List Nat) : Prop := ∀ b ∈ bs, b < 256

/-- A character that `json.dumps` emits verbatim inside a string literal:
printable ASCII other than `"` and `\`.  Every character an ISO-8601
timestamp contains is of this kind. -/
def safeJsonChar (c : Char) : Bool :=
  (32 ≤ c.toNat && c.toNat ≤ 126) && !(c == '"') && !(c == '\\')

/-- The characters a URL-safe base64 token may contain (alphabet plus
padding), per spec §3: "URL-safe base64 (alphabet includes `-`/`_`)". -/
def isUrlsafeTokenChar (c : Char) : Bool :=
  isAsciiAlpha c || isAsciiDigit c || c == '-' || c == '_' || c == '='

/-- Re-assemble a query string from decoded pairs (`k=v` joined by `&`) —
used to state which query parameters a URL carries. -/
def queryString (pairs : List (List Char × List Char)) : List Char :=
  ((pairs.map (fun p => p.1 ++ '=' :: p.2)).intersperse ['&']).flatten

/-- The five envelope fields in builder order, as a parsed JSON object's
field list. -/
def envFields (mo mac msg ts : List Char) : List (List Char × Json) :=
  [("v".data, Json.num 1), ("mode".data, Json.str mo), ("mac".data, Json.str mac),
   ("msg_b64".data, Json.str msg), ("ts".data, Json.str ts)]

/-! ## Lemmas: base64 round-trip -/

theorem b64AlphaChar_val : ∀ n, n < 64 → b64CharVal (b64AlphaChar n) = some n := by decide

theorem b64AlphaChar_ne_pad : ∀ n, n < 64 → b64AlphaChar n ≠ '=' := by decide

theorem b64AlphaChar_ascii : ∀ n, n < 64 → (b64AlphaChar n).toNat ≤ 122 := by decide

theorem b64AlphaChar_isSome {n : Nat} (h : n < 64) :
    (b64CharVal (b64AlphaChar n)).isSome = true := by
  rw [b64AlphaChar_val n h]; rfl

theorem b64encodeL_chars : ∀ bs, ByteOK bs →
    ∀ c ∈ b64encodeL bs, (b64CharVal c).isSome = true ∨ c = '='
  | [], _, c, hc => absurd hc (by simp [b64encodeL])
  | [b1], h, c, hc => by
    have hb1 : b1 < 256 := h b1 (by simp)
    simp [b64encodeL] at hc
    rcases hc with hc | hc | hc
    · exact Or.inl (hc ▸ b64AlphaChar_isSome (by omega))
    · exact Or.inl (hc ▸ b64AlphaChar_isSome (by omega))
    · exact Or.inr hc
  | [b1, b2], h, c, hc => by
    have hb1 : b1 < 256 := h b1 (by simp)
    have hb2 : b2 < 256 := h b2 (by simp)
    simp [b64encodeL] at hc
    rcases hc with hc | hc | hc | hc
    · exact Or.inl (hc ▸ b64AlphaChar_isSome (by omega))
    · exact Or.inl (hc ▸ b64AlphaChar_isSome (by omega))
    · exact Or.inl (hc ▸ b64AlphaChar_isSome (by omega))
    · exact Or.inr hc
  | b1 :: b2 :: b3 :: rest, h, c, hc => by
    have hb1 : b1 < 256 := h b1 (by simp)
    have hb2 : b2 < 256 := h b2 (by simp)
    have hb3 : b3 < 256 := h b3 (by simp)
    simp only [b64encodeL, List.mem_cons] at hc
    rcases hc with hc | hc | hc | hc | hc
    · exact Or.inl (hc ▸ b64AlphaChar_isSome (by omega))
    · exact Or.inl (hc ▸ b64AlphaChar_isSome (by omega))
    · exact Or.inl (hc ▸ b64AlphaChar_isSome (by omega))
    · exact Or.inl (hc ▸ b64AlphaChar_isSome (by omega))
    · exact b64encodeL_chars rest (fun b hb => h b (by simp [hb])) c hc

theorem b64DecQuads_encode : ∀ bs, ByteOK bs → b64DecQuads (b64encodeL bs) = some bs
  | [], _ => rfl
  | [b1], h => by
    have hb1 : b1 < 256 := h b1 (by simp)
    rw [show b64encodeL [b1] =
        [b64AlphaChar (b1 / 4), b64AlphaChar (b1 % 4 * 16), '=', '='] from rfl]
    rw [b64DecQuads, b64AlphaChar_val _ (by omega), b64AlphaChar_val _ (by omega)]
    simp; omega
  | [b1, b2], h => by
    have hb1 : b1 < 256 := h b1 (by simp)
    have hb2 : b2 < 256 := h b2 (by simp)
    rw [show b64encodeL [b1, b2] =
        [b64AlphaChar (b1 / 4), b64AlphaChar (b1 % 4 * 16 + b2 / 16),
         b64AlphaChar (b2 % 16 * 4), '='] from rfl]
    rw [b64DecQuads, b64AlphaChar_val _ (by omega), b64AlphaChar_val _ (by omega)]
    have hne := b64AlphaChar_ne_pad (b2 % 16 * 4) (by omega)
    simp [hne, b64AlphaChar_val _ (show b2 % 16 * 4 < 64 by omega)]
    constructor <;> omega
  | b1 :: b2 :: b3 :: rest, h => by
    have hb1 : b1 < 256 := h b1 (by simp)
    have hb2 : b2 < 256 := h b2 (by simp)
    have hb3 : b3 < 256 := h b3 (by simp)
    have ih := b64DecQuads_encode rest (fun b hb => h b (by simp [hb]))
    rw [show b64encodeL (b1 :: b2 :: b3 :: rest) =
        b64AlphaChar (b1 / 4) :: b64AlphaChar (b1 % 4 * 16 + b2 / 16) ::
        b64AlphaChar (b2 % 16 * 4 + b3 / 64) :: b64AlphaChar (b3 % 64) ::
        b64encodeL rest from rfl]
    rw [b64DecQuads, b64AlphaChar_val _ (by omega), b64AlphaChar_val _ (by omega)]
    have hne3 := b64AlphaChar_ne_pad (b2 % 16 * 4 + b3 / 64) (by omega)
    have hne4 := b64AlphaChar_ne_pad (b3 % 64) (by omega)
    simp [hne3, hne4, b64AlphaChar_val _ (show b2 % 16 * 4 + b3 / 64 < 64 by omega),
          b64AlphaChar_val _ (show b3 % 64 < 64 by omega), ih]
    refine ⟨by omega, by omega, by omega⟩

theorem b64decodeL_encode (bs : List Nat) (h : ByteOK bs) :
    b64decodeL (b64encodeL bs) = some bs := by
  unfold b64decodeL
  rw [List.filter_eq_self.mpr, b64DecQuads_encode bs h]
  intro c hc
  rcases b64encodeL_chars bs h c hc with hv | hv <;> simp [hv]

theorem b64CharVal_dash : b64CharVal '-' = none := by decide

theorem b64CharVal_underscore : b64CharVal '_' = none := by decide

theorem b64CharVal_ascii (c : Char) (hv : (b64CharVal c).isSome = true) : c.toNat ≤ 122 := by
  by_contra hgt
  push_neg at hgt
  have hnone : b64CharVal c = none := by
    unfold b64CharVal
    have h1 : ¬(65 ≤ c.toNat ∧ c.toNat ≤ 90) := by omega
    have h2 : ¬(97 ≤ c.toNat ∧ c.toNat ≤ 122) := by omega
    have h3 : ¬(48 ≤ c.toNat ∧ c.toNat ≤ 57) := by omega
    have h4 : c ≠ '+' := by intro h; rw [h] at hgt; exact absurd hgt (by decide)
    have h5 : c ≠ '/' := by intro h; rw [h] at hgt; exact absurd hgt (by decide)
    simp [h1, h2, h3, h4, h5]
  rw [hnone] at hv
  exact absurd hv (by simp)

/-- Per-character inverse of the urlsafe translations on encoder output. -/
theorem urlsafe_swap_char (c : Char)
    (hc : (b64CharVal c).isSome = true ∨ c = '=') :
    (if (if c = '+' then '-' else if c = '/' then '_' else c) = '-' then '+'
     else if (if c = '+' then '-' else if c = '/' then '_' else c) = '_' then '/'
     else (if c = '+' then '-' else if c = '/' then '_' else c)) = c := by
  by_cases h1 : c = '+'
  · simp [h1]
  · by_cases h2 : c = '/'
    · simp [h1, h2]
    · have hd : c ≠ '-' := by
        rintro rfl
        rcases hc with hv | hv
        · rw [b64CharVal_dash] at hv; exact absurd hv (by simp)
        · exact absurd hv (by decide)
      have hu : c ≠ '_' := by
        rintro rfl
        rcases hc with hv | hv
        · rw [b64CharVal_underscore] at hv; exact absurd hv (by simp)
        · exact absurd hv (by decide)
      simp [h1, h2, hd, hu]

theorem urlsafeB64decode_encode (bs : List Nat) (h : ByteOK bs) :
    urlsafeB64decodeL (urlsafeB64encodeL bs) = some bs := by
  unfold urlsafeB64decodeL urlsafeB64encodeL
  have hascii : ∀ c ∈ (b64encodeL bs).map
      (fun c => if c = '+' then '-' else if c = '/' then '_' else c),
      ¬(127 < c.toNat) := by
    intro c hc
    simp only [List.mem_map] at hc
    obtain ⟨a, ha, rfl⟩ := hc
    rcases b64encodeL_chars bs h a ha with hv | hv
    · by_cases h1 : a = '+'
      · simp [h1]
      · by_cases h2 : a = '/'
        · simp [h1, h2]
        · simp only [h1, h2, if_false]
          have := b64CharVal_ascii a hv
          omega
    · subst hv; decide
  rw [if_neg (by simpa using fun c hc => hascii c hc)]
  rw [List.map_map]
  have : ((b64encodeL bs).map
      ((fun c => if c = '-' then '+' else if c = '_' then '/' else c) ∘
       (fun c => if c = '+' then '-' else if c = '/' then '_' else c))) = b64encodeL bs := by
    conv_rhs => rw [show b64encodeL bs = (b64encodeL bs).map id from (List.map_id _).symm]
    exact List.map_congr_left fun c hc => urlsafe_swap_char c (b64encodeL_chars bs h c hc)
  rw [this, b64decodeL_encode bs h]

/-! ## Lemmas: characters, UTF-8, hex, digests -/

theorem char_toNat_lt (c : Char) : c.toNat < 1114112 := by
  rcases c.valid with h | h
  · unfold Char.toNat; omega
  · unfold Char.toNat; omega

theorem char_eq_iff_toNat (c d : Char) : c = d ↔ c.toNat = d.toNat := by
  constructor
  · rintro rfl; rfl
  · intro h
    exact Char.ext (UInt32.ext h)

theorem char_beq_iff (c d : Char) : (c == d) = (c.toNat == d.toNat) := by
  rw [Bool.eq_iff_iff]
  simp [char_eq_iff_toNat c d]

theorem safeJsonChar_iff (c : Char) :
    safeJsonChar c = true ↔
      32 ≤ c.toNat ∧ c.toNat ≤ 126 ∧ c.toNat ≠ 34 ∧ c.toNat ≠ 92 := by
  unfold safeJsonChar
  rw [char_beq_iff c '"', char_beq_iff c '\\']
  rw [show Char.toNat '"' = 34 from rfl, show Char.toNat '\\' = 92 from rfl]
  simp [and_assoc]

theorem b64CharVal_ranges (c : Char) (h : (b64CharVal c).isSome = true) :
    (65 ≤ c.toNat ∧ c.toNat ≤ 90) ∨ (97 ≤ c.toNat ∧ c.toNat ≤ 122) ∨
    (48 ≤ c.toNat ∧ c.toNat ≤ 57) ∨ c.toNat = 43 ∨ c.toNat = 47 := by
  unfold b64CharVal at h
  by_cases h1 : 65 ≤ c.toNat ∧ c.toNat ≤ 90
  · exact Or.inl h1
  by_cases h2 : 97 ≤ c.toNat ∧ c.toNat ≤ 122
  · exact Or.inr (Or.inl h2)
  by_cases h3 : 48 ≤ c.toNat ∧ c.toNat ≤ 57
  · exact Or.inr (Or.inr (Or.inl h3))
  by_cases h4 : c = '+'
  · exact Or.inr (Or.inr (Or.inr (Or.inl (by rw [h4]; rfl))))
  by_cases h5 : c = '/'
  · exact Or.inr (Or.inr (Or.inr (Or.inr (by rw [h5]; rfl))))
  simp [h1, h2, h3, h4, h5] at h

theorem b64Char_safe (c : Char) (h : (b64CharVal c).isSome = true ∨ c = '=') :
    safeJsonChar c = true := by
  rcases h with h | h
  · rw [safeJsonChar_iff]
    rcases b64CharVal_ranges c h with h | h | h | h | h <;> omega
  · rw [h]; decide

theorem safeJsonChar_ascii (c : Char) (h : safeJsonChar c = true) : c.toNat < 128 := by
  rw [safeJsonChar_iff] at h; omega

theorem hexDigitLower_safe : ∀ n, n < 16 → safeJsonChar (hexDigitLower n) = true := by decide

theorem bytesToHexL_cons (b : Nat) (bs : List Nat) :
    bytesToHexL (b :: bs) =
      hexDigitLower (b / 16) :: hexDigitLower (b % 16) :: bytesToHexL bs := by
  simp [bytesToHexL]

theorem bytesToHexL_safe : ∀ bs, ByteOK bs → ∀ c ∈ bytesToHexL bs, safeJsonChar c = true
  | [], _, c, hc => absurd hc (by simp [bytesToHexL])
  | b :: t, h, c, hc => by
    rw [bytesToHexL_cons] at hc
    have hb : b < 256 := h b (by simp)
    simp only [List.mem_cons] at hc
    rcases hc with hc | hc | hc
    any_goals subst hc
    · exact hexDigitLower_safe (b / 16) (by omega)
    · exact hexDigitLower_safe (b % 16) (by omega)
    · exact bytesToHexL_safe t (fun x hx => h x (by simp [hx])) c hc

theorem b64encodeL_safe (bs : List Nat) (h : ByteOK bs) :
    ∀ c ∈ b64encodeL bs, safeJsonChar c = true :=
  fun c hc => b64Char_safe c (b64encodeL_chars bs h c hc)

theorem utf8Encode_cons (c : Char) (t : List Char) :
    utf8Encode (c :: t) = utf8EncodeChar c ++ utf8Encode t := by
  simp [utf8Encode]

theorem utf8EncodeChar_ascii (c : Char) (h : c.toNat < 128) :
    utf8EncodeChar c = [c.toNat] := by
  unfold utf8EncodeChar
  simp [h]

theorem utf8EncodeChar_eq_two (c : Char) (h1 : ¬c.toNat < 128) (h2 : c.toNat < 2048) :
    utf8EncodeChar c = [192 + c.toNat / 64, 128 + c.toNat % 64] := by
  unfold utf8EncodeChar
  simp [h1, h2]

theorem utf8EncodeChar_eq_three (c : Char) (h1 : ¬c.toNat < 128) (h2 : ¬c.toNat < 2048)
    (h3 : c.toNat < 65536) :
    utf8EncodeChar c =
      [224 + c.toNat / 4096, 128 + c.toNat / 64 % 64, 128 + c.toNat % 64] := by
  unfold utf8EncodeChar
  simp [h1, h2, h3]

theorem utf8EncodeChar_eq_four (c : Char) (h1 : ¬c.toNat < 128) (h2 : ¬c.toNat < 2048)
    (h3 : ¬c.toNat < 65536) :
    utf8EncodeChar c =
      [240 + c.toNat / 262144, 128 + c.toNat / 4096 % 64,
       128 + c.toNat / 64 % 64, 128 + c.toNat % 64] := by
  unfold utf8EncodeChar
  simp [h1, h2, h3]

theorem utf8EncodeChar_byteOK (c : Char) : ByteOK (utf8EncodeChar c) := by
  intro b hb
  have hlt := char_toNat_lt c
  by_cases h1 : c.toNat < 128
  · rw [utf8EncodeChar_ascii c h1] at hb
    simp at hb; omega
  · by_cases h2 : c.toNat < 2048
    · rw [utf8EncodeChar_eq_two c h1 h2] at hb
      simp at hb; rcases hb with hb | hb <;> omega
    · by_cases h3 : c.toNat < 65536
      · rw [utf8EncodeChar_eq_three c h1 h2 h3] at hb
        simp at hb; rcases hb with hb | hb | hb <;> omega
      · rw [utf8EncodeChar_eq_four c h1 h2 h3] at hb
        simp at hb; rcases hb with hb | hb | hb | hb <;> omega

theorem utf8Encode_byteOK (s : List Char) : ByteOK (utf8Encode s) := by
  intro b hb
  unfold utf8Encode at hb
  simp only [List.mem_flatten, List.mem_map] at hb
  obtain ⟨l, ⟨c, _, rfl⟩, hbl⟩ := hb
  exact utf8EncodeChar_byteOK c b hbl

theorem utf8Split_ascii (b : Nat) (rest : List Nat) (h : b < 128) :
    utf8Split (b :: rest) = some (b, rest) := by
  simp [utf8Split, h]

theorem utf8DecodeL_encode_ascii :
    ∀ s : List Char, (∀ c ∈ s, c.toNat < 128) → utf8DecodeL (utf8Encode s) = some s
  | [], _ => rfl
  | c :: t, h => by
    have hc : c.toNat < 128 := h c (by simp)
    have ih := utf8DecodeL_encode_ascii t (fun x hx => h x (by simp [hx]))
    rw [utf8Encode_cons, utf8EncodeChar_ascii c hc]
    show utf8DecodeL (c.toNat :: utf8Encode t) = _
    unfold utf8DecodeL
    rw [show (c.toNat :: utf8Encode t).length = (utf8Encode t).length + 1 from rfl]
    rw [utf8DecodeGo, utf8Split_ascii _ _ hc]
    unfold utf8DecodeL at ih
    simp [ih, Char.ofNat_toNat]

theorem beBytes_byteOK : ∀ k n, ByteOK (beBytes k n)
  | 0, _ => by intro b hb; simp [beBytes] at hb
  | k + 1, n => by
    intro b hb
    simp only [beBytes, List.mem_append, List.mem_singleton] at hb
    rcases hb with hb | hb
    · exact beBytes_byteOK k (n / 256) b hb
    · omega

theorem beBytes_length : ∀ k n, (beBytes k n).length = k
  | 0, _ => rfl
  | k + 1, n => by simp [beBytes, beBytes_length k]

theorem sha256_byteOK (m : List Nat) : ByteOK (sha256 m) := by
  intro b hb
  unfold sha256 at hb
  simp only [List.mem_append] at hb
  rcases hb with ((((((hb | hb) | hb) | hb) | hb) | hb) | hb) | hb <;>
    exact beBytes_byteOK 4 _ b hb

theorem sha256_length (m : List Nat) : (sha256 m).length = 32 := by
  unfold sha256
  simp [beBytes_length]

theorem sha256_ne_nil (m : List Nat) : sha256 m ≠ [] := by
  intro h
  have := sha256_length m
  rw [h] at this
  simp at this

theorem compute_hash_byteOK (m : List Nat) : ByteOK (compute_hash m) := sha256_byteOK m

theorem compute_hmac_byteOK (m : List Nat) (k : String) : ByteOK (compute_hmac m k) :=
  sha256_byteOK _

theorem compute_hash_ne_nil (m : List Nat) : compute_hash m ≠ [] := sha256_ne_nil _

theorem compute_hmac_ne_nil (m : List Nat) (k : String) : compute_hmac m k ≠ [] :=
  sha256_ne_nil _

theorem b64encodeL_ne_nil : ∀ bs : List Nat, bs ≠ [] → b64encodeL bs ≠ []
  | [], h => absurd rfl h
  | [_], _ => by simp [b64encodeL]
  | [_, _], _ => by simp [b64encodeL]
  | _ :: _ :: _ :: _, _ => by simp [b64encodeL]

theorem bytesToHexL_ne_nil : ∀ bs : List Nat, bs ≠ [] → bytesToHexL bs ≠ []
  | [], h => absurd rfl h
  | b :: t, _ => by rw [bytesToHexL_cons]; simp

/-! ## Lemmas: JSON serialization round-trip for the envelope -/

theorem all_mem_of_all {s : List Char} {p : Char → Bool} (h : s.all p = true) :
    ∀ c ∈ s, p c = true := by
  rw [List.all_eq_true] at h
  exact h

theorem allAsciiOfSafe {s : List Char} (h : s.all safeJsonChar = true) :
    ∀ c ∈ s, c.toNat < 128 :=
  fun c hc => safeJsonChar_ascii c (all_mem_of_all h c hc)

theorem jsonEscChar_safe (c : Char) (h : safeJsonChar c = true) : jsonEscChar c = [c] := by
  rw [safeJsonChar_iff] at h
  unfold jsonEscChar
  rw [if_neg (by rw [char_eq_iff_toNat]; exact fun hx => h.2.2.1 hx)]
  rw [if_neg (by rw [char_eq_iff_toNat]; exact fun hx => h.2.2.2 hx)]
  rw [if_neg (by rw [char_eq_iff_toNat]; intro hx; rw [show (Char.ofNat 8).toNat = 8 from rfl] at hx; omega)]
  rw [if_neg (by rw [char_eq_iff_toNat]; intro hx; rw [show (Char.ofNat 9).toNat = 9 from rfl] at hx; omega)]
  rw [if_neg (by rw [char_eq_iff_toNat]; intro hx; rw [show (Char.ofNat 10).toNat = 10 from rfl] at hx; omega)]
  rw [if_neg (by rw [char_eq_iff_toNat]; intro hx; rw [show (Char.ofNat 12).toNat = 12 from rfl] at hx; omega)]
  rw [if_neg (by rw [char_eq_iff_toNat]; intro hx; rw [show (Char.ofNat 13).toNat = 13 from rfl] at hx; omega)]
  rw [if_neg (by omega), if_pos (by omega)]

theorem escape_flatten_safe :
    ∀ s : List Char, s.all safeJsonChar = true → (s.map jsonEscChar).flatten = s
  | [], _ => rfl
  | c :: t, h => by
    simp only [List.all_cons, Bool.and_eq_true] at h
    rw [List.map_cons, List.flatten_cons, jsonEscChar_safe c h.1,
      escape_flatten_safe t h.2]
    rfl

theorem dumpJStr_safe (s : List Char) (h : s.all safeJsonChar = true) :
    dumpJStr s = '"' :: s ++ ['"'] := by
  unfold dumpJStr
  rw [escape_flatten_safe s h]

theorem parseJStrRaw_quote (rest : List Char) : parseJStrRaw ('"' :: rest) = some ([], rest) := by
  rw [parseJStrRaw.eq_def]
  simp

theorem parseJStrRaw_cons (rest : List Char) (c : Char) (h1 : ¬c = '"') (h2 : ¬c = '\\')
    (h3 : ¬c.toNat < 32) :
    parseJStrRaw (c :: rest) = (parseJStrRaw rest).map (fun p => (c.toNat :: p.1, p.2)) := by
  rw [parseJStrRaw.eq_def]
  simp [h1, h2, h3]

theorem parseJStrRaw_safe :
    ∀ s : List Char, s.all safeJsonChar = true →
      ∀ rest, parseJStrRaw (s ++ '"' :: rest) = some (s.map Char.toNat, rest)
  | [], _, rest => by
    rw [List.nil_append, parseJStrRaw_quote]
    rfl
  | c :: t, h, rest => by
    simp only [List.all_cons, Bool.and_eq_true] at h
    have hsafe := (safeJsonChar_iff c).mp h.1
    have hq : ¬c = '"' := by rw [char_eq_iff_toNat]; exact fun hx => hsafe.2.2.1 hx
    have hbs : ¬c = '\\' := by rw [char_eq_iff_toNat]; exact fun hx => hsafe.2.2.2 hx
    rw [List.cons_append, parseJStrRaw_cons _ c hq hbs (by omega)]
    rw [parseJStrRaw_safe t h.2 rest]
    rfl

theorem combineSurrogates_below :
    ∀ us : List Nat, (∀ u ∈ us, u < 55296) → combineSurrogates us = us
  | [], _ => rfl
  | [n], _ => rfl
  | n1 :: n2 :: rest, h => by
    rw [combineSurrogates]
    rw [if_neg (by
      have := h n1 (by simp)
      intro hx
      omega)]
    congr 1
    exact combineSurrogates_below (n2 :: rest) (fun u hu => h u (by simp at hu; rcases hu with hu | hu <;> simp [hu]))

theorem parseJStrBody_safe (s : List Char) (h : s.all safeJsonChar = true) (rest : List Char) :
    parseJStrBody (s ++ '"' :: rest) = some (s, rest) := by
  unfold parseJStrBody
  rw [parseJStrRaw_safe s h rest]
  have hlow : ∀ u ∈ s.map Char.toNat, u < 55296 := by
    intro u hu
    simp only [List.mem_map] at hu
    obtain ⟨c, hc, rfl⟩ := hu
    have := safeJsonChar_ascii c (all_mem_of_all h c hc)
    omega
  have hid : List.map Char.ofNat (List.map Char.toNat s) = s := by
    rw [List.map_map]
    conv_rhs => rw [show s = s.map id from (List.map_id s).symm]
    exact List.map_congr_left (fun c _ => Char.ofNat_toNat c)
  simp [combineSurrogates_below _ hlow, hid]

theorem parseJson_str_safe (f : Nat) (s rest : List Char) (h : s.all safeJsonChar = true) :
    parseJson (f + 1) (dumpJStr s ++ rest) = some (Json.str s, rest) := by
  rw [dumpJStr_safe s h]
  rw [show ('"' :: s ++ ['"']) ++ rest = '"' :: (s ++ '"' :: rest) by simp]
  rw [parseJson]
  have hskip : skipWs ('"' :: (s ++ '"' :: rest)) = '"' :: (s ++ '"' :: rest) := by
    simp [skipWs, isJsonWs]
  rw [hskip]
  simp only []
  rw [parseJStrBody_safe s h rest]
  simp

theorem parseJson_num1 (f : Nat) (rc : Char) (rt : List Char)
    (hsep : rc = ',' ∨ rc = '\x7d') :
    parseJson (f + 1) ('1' :: rc :: rt) = some (Json.num 1, rc :: rt) := by
  have hnotdigit : isDigitChar rc = false := by
    rcases hsep with h | h <;> rw [h] <;> rfl
  have hrange : ¬(48 ≤ rc.toNat ∧ rc.toNat ≤ 57) := by
    rcases hsep with h | h <;> rw [h] <;> decide
  have hdot : ¬rc = '.' := by rcases hsep with h | h <;> rw [h] <;> decide
  have he : ¬rc = 'e' := by rcases hsep with h | h <;> rw [h] <;> decide
  have hE : ¬rc = 'E' := by rcases hsep with h | h <;> rw [h] <;> decide
  rw [parseJson]
  simp [skipWs, isJsonWs, parseNumber, isDigitChar, List.takeWhile_cons,
    List.dropWhile_cons, hnotdigit, hrange, hdot, he, hE, natOfDigits]

theorem parseMembers_last_str (f : Nat) (hf : 1 ≤ f) (k s rest : List Char)
    (hk : k.all safeJsonChar = true) (hs : s.all safeJsonChar = true) :
    parseMembers (f + 1) (dumpJStr k ++ ':' :: dumpJStr s ++ '\x7d' :: rest) =
      some ([(k, Json.str s)], rest) := by
  obtain ⟨g, rfl⟩ : ∃ g, f = g + 1 := ⟨f - 1, by omega⟩
  rw [dumpJStr_safe k hk]
  rw [show ('"' :: k ++ ['"']) ++ ':' :: dumpJStr s ++ '\x7d' :: rest =
      '"' :: (k ++ '"' :: (':' :: (dumpJStr s ++ '\x7d' :: rest))) by simp]
  rw [parseMembers]
  have hskip : skipWs ('"' :: (k ++ '"' :: (':' :: (dumpJStr s ++ '\x7d' :: rest)))) =
      '"' :: (k ++ '"' :: (':' :: (dumpJStr s ++ '\x7d' :: rest))) := by
    simp [skipWs, isJsonWs]
  rw [hskip]
  simp only [parseJStrBody_safe k hk]
  have hskip2 : skipWs (':' :: (dumpJStr s ++ '\x7d' :: rest)) =
      ':' :: (dumpJStr s ++ '\x7d' :: rest) := by
    simp [skipWs, isJsonWs]
  rw [hskip2]
  simp only [parseJson_str_safe g s ('\x7d' :: rest) hs]
  have hskip3 : skipWs ('\x7d' :: rest) = '\x7d' :: rest := by
    simp [skipWs, isJsonWs]
  rw [hskip3]
  simp

theorem parseMembers_cons_str (f : Nat) (hf : 1 ≤ f) (k s T : List Char)
    (hk : k.all safeJsonChar = true) (hs : s.all safeJsonChar = true) :
    parseMembers (f + 1) (dumpJStr k ++ ':' :: dumpJStr s ++ ',' :: T) =
      (parseMembers f T).map (fun p => ((k, Json.str s) :: p.1, p.2)) := by
  obtain ⟨g, rfl⟩ : ∃ g, f = g + 1 := ⟨f - 1, by omega⟩
  rw [dumpJStr_safe k hk]
  rw [show ('"' :: k ++ ['"']) ++ ':' :: dumpJStr s ++ ',' :: T =
      '"' :: (k ++ '"' :: (':' :: (dumpJStr s ++ ',' :: T))) by simp]
  rw [parseMembers]
  have hskip : skipWs ('"' :: (k ++ '"' :: (':' :: (dumpJStr s ++ ',' :: T)))) =
      '"' :: (k ++ '"' :: (':' :: (dumpJStr s ++ ',' :: T))) := by
    simp [skipWs, isJsonWs]
  rw [hskip]
  simp only [parseJStrBody_safe k hk]
  have hskip2 : skipWs (':' :: (dumpJStr s ++ ',' :: T)) =
      ':' :: (dumpJStr s ++ ',' :: T) := by
    simp [skipWs, isJsonWs]
  rw [hskip2]
  simp only [parseJson_str_safe g s (',' :: T) hs]
  have hskip3 : skipWs (',' :: T) = ',' :: T := by simp [skipWs, isJsonWs]
  rw [hskip3]
  simp

theorem parseMembers_cons_num1 (f : Nat) (hf : 1 ≤ f) (k T : List Char)
    (hk : k.all safeJsonChar = true) :
    parseMembers (f + 1) (dumpJStr k ++ ':' :: '1' :: ',' :: T) =
      (parseMembers f T).map (fun p => ((k, Json.num 1) :: p.1, p.2)) := by
  obtain ⟨g, rfl⟩ : ∃ g, f = g + 1 := ⟨f - 1, by omega⟩
  rw [dumpJStr_safe k hk]
  rw [show ('"' :: k ++ ['"']) ++ ':' :: '1' :: ',' :: T =
      '"' :: (k ++ '"' :: (':' :: '1' :: ',' :: T)) by simp]
  rw [parseMembers]
  have hskip : skipWs ('"' :: (k ++ '"' :: (':' :: '1' :: ',' :: T))) =
      '"' :: (k ++ '"' :: (':' :: '1' :: ',' :: T)) := by
    simp [skipWs, isJsonWs]
  rw [hskip]
  simp only [parseJStrBody_safe k hk]
  have hskip2 : skipWs (':' :: '1' :: ',' :: T) = ':' :: '1' :: ',' :: T := by
    simp [skipWs, isJsonWs]
  rw [hskip2]
  simp only [parseJson_num1 g ',' T (Or.inl rfl)]
  have hskip3 : skipWs (',' :: T) = ',' :: T := by simp [skipWs, isJsonWs]
  rw [hskip3]
  simp

theorem dumpsFields_env (mo mac msg ts : List Char) :
    dumpsFields (envFields mo mac msg ts) =
      dumpJStr "v".data ++ ':' :: '1' ::
      ',' :: (dumpJStr "mode".data ++ ':' :: (dumpJStr mo ++
      ',' :: (dumpJStr "mac".data ++ ':' :: (dumpJStr mac ++
      ',' :: (dumpJStr "msg_b64".data ++ ':' :: (dumpJStr msg ++
      ',' :: (dumpJStr "ts".data ++ ':' :: dumpJStr ts))))))) := by
  simp [envFields, dumpsFields, jsonDumps]
  rw [show (toString (1 : Int)).data = ['1'] from by decide]
  simp

theorem parseMembers_env (g : Nat) (hg : 1 ≤ g) (mo mac msg ts rest : List Char)
    (hmo : mo.all safeJsonChar = true) (hmac : mac.all safeJsonChar = true)
    (hmsg : msg.all safeJsonChar = true) (hts : ts.all safeJsonChar = true) :
    parseMembers (g + 5) (dumpsFields (envFields mo mac msg ts) ++ '\x7d' :: rest) =
      some (envFields mo mac msg ts, rest) := by
  rw [dumpsFields_env]
  rw [show (dumpJStr "v".data ++ ':' :: '1' ::
      ',' :: (dumpJStr "mode".data ++ ':' :: (dumpJStr mo ++
      ',' :: (dumpJStr "mac".data ++ ':' :: (dumpJStr mac ++
      ',' :: (dumpJStr "msg_b64".data ++ ':' :: (dumpJStr msg ++
      ',' :: (dumpJStr "ts".data ++ ':' :: dumpJStr ts)))))))) ++ '\x7d' :: rest =
      dumpJStr "v".data ++ ':' :: '1' ::
      ',' :: (dumpJStr "mode".data ++ ':' :: dumpJStr mo ++
      ',' :: (dumpJStr "mac".data ++ ':' :: dumpJStr mac ++
      ',' :: (dumpJStr "msg_b64".data ++ ':' :: dumpJStr msg ++
      ',' :: (dumpJStr "ts".data ++ ':' :: dumpJStr ts ++ '\x7d' :: rest)))) by simp]
  rw [show g + 5 = (g + 4) + 1 from rfl]
  rw [parseMembers_cons_num1 (g + 4) (by omega) "v".data _ (by decide)]
  rw [show g + 4 = (g + 3) + 1 from rfl]
  rw [parseMembers_cons_str (g + 3) (by omega) "mode".data mo _ (by decide) hmo]
  rw [show g + 3 = (g + 2) + 1 from rfl]
  rw [parseMembers_cons_str (g + 2) (by omega) "mac".data mac _ (by decide) hmac]
  rw [show g + 2 = (g + 1) + 1 from rfl]
  rw [parseMembers_cons_str (g + 1) (by omega) "msg_b64".data msg _ (by decide) hmsg]
  rw [parseMembers_last_str g hg "ts".data ts rest (by decide) hts]
  simp [envFields]

theorem parseJson_env (g : Nat) (hg : 1 ≤ g) (mo mac msg ts rest : List Char)
    (hmo : mo.all safeJsonChar = true) (hmac : mac.all safeJsonChar = true)
    (hmsg : msg.all safeJsonChar = true) (hts : ts.all safeJsonChar = true) :
    parseJson (g + 6) ('\x7b' :: (dumpsFields (envFields mo mac msg ts) ++ '\x7d' :: rest)) =
      some (Json.obj (envFields mo mac msg ts), rest) := by
  have hskip : skipWs ('\x7b' :: (dumpsFields (envFields mo mac msg ts) ++ '\x7d' :: rest)) =
      '\x7b' :: (dumpsFields (envFields mo mac msg ts) ++ '\x7d' :: rest) := by
    simp [skipWs, isJsonWs]
  have hhead : skipWs (dumpsFields (envFields mo mac msg ts) ++ '\x7d' :: rest) =
      '"' :: ('v' :: '"' :: ':' :: '1' ::
      ',' :: (dumpJStr "mode".data ++ ':' :: (dumpJStr mo ++
      ',' :: (dumpJStr "mac".data ++ ':' :: (dumpJStr mac ++
      ',' :: (dumpJStr "msg_b64".data ++ ':' :: (dumpJStr msg ++
      ',' :: (dumpJStr "ts".data ++ ':' :: dumpJStr ts))))))) ++ '\x7d' :: rest) := by
    rw [dumpsFields_env]
    simp [skipWs, isJsonWs, dumpJStr_safe "v".data (by decide)]
  rw [show g + 6 = (g + 5) + 1 from rfl, parseJson]
  rw [hskip]
  simp only [hhead]
  rw [parseMembers_env g hg mo mac msg ts rest hmo hmac hmsg hts]
  simp

theorem all_ascii_of_safe (s : List Char) (h : s.all safeJsonChar = true) :
    s.all (fun c => decide (c.toNat < 128)) = true := by
  rw [List.all_eq_true] at h ⊢
  intro c hc
  simpa using safeJsonChar_ascii c (h c hc)

theorem b64encodeL_all_safe (bs : List Nat) (h : ByteOK bs) :
    (b64encodeL bs).all safeJsonChar = true :=
  List.all_eq_true.mpr (fun c hc => b64encodeL_safe bs h c hc)

theorem bytesToHexL_all_safe (bs : List Nat) (h : ByteOK bs) :
    (bytesToHexL bs).all safeJsonChar = true :=
  List.all_eq_true.mpr (fun c hc => bytesToHexL_safe bs h c hc)

theorem jsonDumps_env_eq (mo mac msg ts : List Char) :
    jsonDumps (Json.obj (envFields mo mac msg ts)) =
      '\x7b' :: (dumpsFields (envFields mo mac msg ts) ++ ['\x7d']) := by
  simp [jsonDumps]

theorem dumpsFields_env_len (mo mac msg ts : List Char) :
    4 ≤ (dumpsFields (envFields mo mac msg ts)).length := by
  rw [dumpsFields_env, dumpJStr_safe "v".data (by decide)]
  simp only [List.length_append, List.length_cons, List.length_nil]
  omega

theorem jsonLoadsChars_env (mo mac msg ts : List Char)
    (hmo : mo.all safeJsonChar = true) (hmac : mac.all safeJsonChar = true)
    (hmsg : msg.all safeJsonChar = true) (hts : ts.all safeJsonChar = true) :
    jsonLoadsChars (jsonDumps (Json.obj (envFields mo mac msg ts))) =
      some (Json.obj (envFields mo mac msg ts)) := by
  rw [jsonDumps_env_eq]
  unfold jsonLoadsChars
  have hdf := dumpsFields_env_len mo mac msg ts
  rw [show ('\x7b' :: (dumpsFields (envFields mo mac msg ts) ++ ['\x7d'])).length =
      (dumpsFields (envFields mo mac msg ts)).length + 2 by simp]
  obtain ⟨g, hg1, hgeq⟩ : ∃ g, 1 ≤ g ∧
      (dumpsFields (envFields mo mac msg ts)).length + 2 + 1 = g + 6 :=
    ⟨(dumpsFields (envFields mo mac msg ts)).length - 3, by omega, by omega⟩
  rw [hgeq]
  rw [show (dumpsFields (envFields mo mac msg ts) ++ ['\x7d']) =
      dumpsFields (envFields mo mac msg ts) ++ '\x7d' :: [] from rfl]
  rw [parseJson_env g hg1 mo mac msg ts [] hmo hmac hmsg hts]
  simp [skipWs]

theorem jsonDumps_env_ascii (mo mac msg ts : List Char)
    (hmo : mo.all safeJsonChar = true) (hmac : mac.all safeJsonChar = true)
    (hmsg : msg.all safeJsonChar = true) (hts : ts.all safeJsonChar = true) :
    ∀ c ∈ jsonDumps (Json.obj (envFields mo mac msg ts)), c.toNat < 128 := by
  have hall : (jsonDumps (Json.obj (envFields mo mac msg ts))).all
      (fun c => decide (c.toNat < 128)) = true := by
    rw [jsonDumps_env_eq, dumpsFields_env, dumpJStr_safe "v".data (by decide),
        dumpJStr_safe "mode".data (by decide), dumpJStr_safe "mac".data (by decide),
        dumpJStr_safe "msg_b64".data (by decide), dumpJStr_safe "ts".data (by decide),
        dumpJStr_safe mo hmo, dumpJStr_safe mac hmac, dumpJStr_safe msg hmsg,
        dumpJStr_safe ts hts]
    simp [List.all_append, all_ascii_of_safe mo hmo, all_ascii_of_safe mac hmac,
      all_ascii_of_safe msg hmsg, all_ascii_of_safe ts hts]
  exact fun c hc => by simpa using List.all_eq_true.mp hall c hc

theorem jsonLoadsBytes_env (mo mac msg ts : List Char)
    (hmo : mo.all safeJsonChar = true) (hmac : mac.all safeJsonChar = true)
    (hmsg : msg.all safeJsonChar = true) (hts : ts.all safeJsonChar = true) :
    jsonLoadsBytes (utf8Encode (jsonDumps (Json.obj (envFields mo mac msg ts)))) =
      some (Json.obj (envFields mo mac msg ts)) := by
  unfold jsonLoadsBytes
  rw [utf8DecodeL_encode_ascii _ (jsonDumps_env_ascii mo mac msg ts hmo hmac hmsg hts)]
  show jsonLoadsChars (jsonDumps (Json.obj (envFields mo mac msg ts))) = _
  exact jsonLoadsChars_env mo mac msg ts hmo hmac hmsg hts

theorem payloadJson_eq (m : List Nat) (key : Option String) (ts : String) :
    payloadJson m key ts = Json.obj (envFields
      (if keyTruthy key then "hmac".data else "hash".data)
      (if keyTruthy key then b64encodeL (compute_hmac m (key.getD ""))
       else bytesToHexL (compute_hash m))
      (b64encodeL m) ts.data) := by
  unfold payloadJson envFields
  by_cases h : keyTruthy key = true <;> simp [h]

theorem verify_decode_make (m : List Nat) (key : Option String) (ts : String)
    (hm : ByteOK m) (hts : ts.data.all safeJsonChar = true) (key' : Option String) :
    verify_payload (make_payload_bytes m key ts) key' =
      verify_parsed (payloadJson m key ts) key' := by
  have hmo : (if keyTruthy key then "hmac".data else "hash".data).all safeJsonChar = true := by
    by_cases h : keyTruthy key = true
    · rw [if_pos h]; decide
    · rw [if_neg (by simp [h])]; decide
  have hmac : (if keyTruthy key then b64encodeL (compute_hmac m (key.getD ""))
      else bytesToHexL (compute_hash m)).all safeJsonChar = true := by
    by_cases h : keyTruthy key = true
    · rw [if_pos h]; exact b64encodeL_all_safe _ (compute_hmac_byteOK m _)
    · rw [if_neg (by simp [h])]; exact bytesToHexL_all_safe _ (compute_hash_byteOK m)
  have hmsg : (b64encodeL m).all safeJsonChar = true := b64encodeL_all_safe m hm
  unfold verify_payload make_payload_bytes
  rw [show (String.mk (urlsafeB64encodeL (utf8Encode (jsonDumps (payloadJson m key ts))))).data =
      urlsafeB64encodeL (utf8Encode (jsonDumps (payloadJson m key ts))) from rfl]
  rw [urlsafeB64decode_encode _ (utf8Encode_byteOK _)]
  rw [payloadJson_eq]
  simp [jsonLoadsBytes_env _ _ _ _ hmo hmac hmsg hts]

theorem verify_parsed_env (mo mac msg ts : List Char) (key' : Option String) :
    verify_parsed (Json.obj (envFields mo mac msg ts)) key' =
      .ok (verify_fields (some (Json.str mo)) (some (Json.str mac))
            (some (Json.str msg)) (some (Json.str ts)) key') := by
  unfold verify_parsed
  simp [pyGet, envFields]

theorem strTruthy (s : List Char) (h : s ≠ []) : optTruthy (some (Json.str s)) = true := by
  simp [optTruthy, Json.truthy, h]

theorem b64encodeL_no_high (bs : List Nat) (h : ByteOK bs) :
    (b64encodeL bs).any (fun c => decide (127 < c.toNat)) = false := by
  rw [Bool.eq_false_iff]
  intro hany
  rw [List.any_eq_true] at hany
  obtain ⟨c, hc, hgt⟩ := hany
  rw [decide_eq_true_eq] at hgt
  rcases b64encodeL_chars bs h c hc with hv | hv
  · have := b64CharVal_ascii c hv
    omega
  · rw [hv] at hgt
    exact absurd hgt (by decide)

theorem b64decodeStr_encode (bs : List Nat) (h : ByteOK bs) :
    b64decodeStr (b64encodeL bs) = some bs := by
  unfold b64decodeStr
  rw [if_neg (by rw [b64encodeL_no_high bs h]; simp), b64decodeL_encode bs h]

theorem verify_fields_hash (m : List Nat) (ts : List Char) (key' : Option String)
    (hm : ByteOK m) (hne : m ≠ []) :
    verify_fields (some (Json.str "hash".data))
      (some (Json.str (bytesToHexL (compute_hash m))))
      (some (Json.str (b64encodeL m))) (some (Json.str ts)) key' =
      ⟨true, some (textOrB64 m), some (Json.str "hash".data, some (Json.str ts)), none⟩ := by
  unfold verify_fields
  rw [if_neg (by
    simp only [strTruthy _ (show "hash".data ≠ [] by decide),
      strTruthy _ (bytesToHexL_ne_nil _ (compute_hash_ne_nil m)),
      strTruthy _ (b64encodeL_ne_nil m hne)]
    simp)]
  simp [b64decodeStr_encode m hm]

theorem verify_fields_hmac_ok (m : List Nat) (ts : List Char) (k : String) (hk : ¬k = "")
    (hm : ByteOK m) (hne : m ≠ []) :
    verify_fields (some (Json.str "hmac".data))
      (some (Json.str (b64encodeL (compute_hmac m k))))
      (some (Json.str (b64encodeL m))) (some (Json.str ts)) (some k) =
      ⟨true, some (textOrB64 m), some (Json.str "hmac".data, some (Json.str ts)), none⟩ := by
  have hkt : keyTruthy (some k) = true := by
    simp [keyTruthy]
    rw [Bool.eq_false_iff]
    intro hemp
    exact hk ((String.isEmpty_iff k).mp hemp)
  unfold verify_fields
  rw [if_neg (by
    simp only [strTruthy _ (show "hmac".data ≠ [] by decide),
      strTruthy _ (b64encodeL_ne_nil _ (compute_hmac_ne_nil m k)),
      strTruthy _ (b64encodeL_ne_nil m hne)]
    simp)]
  simp [b64decodeStr_encode m hm, hkt, b64decodeStr_encode _ (compute_hmac_byteOK m k)]

theorem verify_fields_hmac_nokey (m : List Nat) (macs ts : List Char) (hmacne : macs ≠ [])
    (hm : ByteOK m) (hne : m ≠ []) :
    verify_fields (some (Json.str "hmac".data)) (some (Json.str macs))
      (some (Json.str (b64encodeL m))) (some (Json.str ts)) none =
      ⟨false, none, none, some "HMAC key required for verification"⟩ := by
  unfold verify_fields
  rw [if_neg (by
    simp only [strTruthy _ (show "hmac".data ≠ [] by decide), strTruthy _ hmacne,
      strTruthy _ (b64encodeL_ne_nil m hne)]
    simp)]
  simp [b64decodeStr_encode m hm, keyTruthy]

set_option maxRecDepth 100000 in
/-- C1.  Round-trip as the spec states it — for *every* message including the
empty one — fails: the verifier's `all([mode, mac_field, msg_b64])` truthiness
gate treats the empty message's `msg_b64 = ""` as a missing field, so
`verify(build(b"", key), key)` is `valid = false` with reason
`"Missing fields in payload"`, not `valid = true`. -/
theorem C1_counterexample :
    verify_payload (make_payload_bytes [] none "2025-01-01T00:00:00+00:00") none =
      Except.ok ⟨false, none, none, some "Missing fields in payload"⟩ := by
  rfl

set_option maxHeartbeats 2000000 in
/-- C1 (amended: all *nonempty* messages).  For every nonempty byte sequence
`m`, every key (including `None` and `"k"`), and every timestamp the clock can
produce (printable ASCII without `"`/`\`), verifying the token built from `m`
with that key yields `valid = true` and the recovered message is exactly the
text-or-base64 representation of `m`. -/
theorem C1_round_trip (m : List Nat) (key : Option String) (ts : String)
    (hm : ByteOK m) (hne : m ≠ []) (hts : ts.data.all safeJsonChar = true) :
    verify_payload (make_payload_bytes m key ts) key =
      Except.ok ⟨true, some (textOrB64 m),
        some (Json.str (if keyTruthy key then "hmac".data else "hash".data),
              some (Json.str ts.data)), none⟩ := by
  rw [verify_decode_make m key ts hm hts key, payloadJson_eq, verify_parsed_env]
  by_cases h : keyTruthy key = true
  · obtain ⟨k, rfl⟩ : ∃ k, key = some k := by
      cases key with
      | none => exact absurd h (by simp [keyTruthy])
      | some k => exact ⟨k, rfl⟩
    have hk : ¬k = "" := by
      intro hk
      rw [hk] at h
      exact absurd h (by simp [keyTruthy, String.isEmpty_iff])
    rw [if_pos h]
    rw [Option.getD_some]
    rw [if_pos h]
    rw [verify_fields_hmac_ok m ts.data k hk hm hne]
  · rw [if_neg h]
    rw [if_neg h]
    rw [verify_fields_hash m ts.data key hm hne]

/-- Witness for C1's amended round-trip at `m = b"hi"`, no key, `ts = "t"`. -/
theorem C1_round_trip_witness :
    verify_payload (make_payload_bytes [104, 105] none "t") none =
      Except.ok ⟨true, some (textOrB64 [104, 105]),
        some (Json.str (if keyTruthy none then "hmac".data else "hash".data),
              some (Json.str "t".data)), none⟩ :=
  C1_round_trip [104, 105] none "t" (by intro b hb; simp at hb; omega)
    (by simp) (by decide)

theorem keyTruthy_some (k : String) (hk : ¬k = "") : keyTruthy (some k) = true := by
  simp [keyTruthy]
  rw [Bool.eq_false_iff]
  intro hemp
  exact hk ((String.isEmpty_iff k).mp hemp)

/-- C2.  For the token `"MTIz"` — URL-safe base64 of the bytes `b"123"` —
the outer decode succeeds and `json.loads` returns the integer `123`;
`payload.get('mode')` then raises an uncaught `AttributeError`, so an
exception escapes `verify_payload` instead of a `Verdict`. -/
theorem C2_exception_escape :
    verify_payload "MTIz" none =
      Except.error "AttributeError: int object has no attribute get" := by
  rfl

set_option maxRecDepth 100000 in
set_option maxHeartbeats 1000000 in
/-- C4.  Verifying an hmac-mode token without a key returns
`message = None` — the recovered message is *not* carried in the verdict,
contradicting the claim (the code's early return discards it). -/
theorem C4_counterexample :
    verify_payload (make_payload_bytes [104, 105] (some "k") "t") none =
      Except.ok ⟨false, none, none, some "HMAC key required for verification"⟩ := by
  rfl

/-- C4 (amended).  For every hmac-mode token (nonempty message, nonempty
key), verifying with no key yields `valid = false` with reason
`"HMAC key required for verification"` and `message = None`, `meta = None`:
the recovered message is dropped, not surfaced. -/
theorem C4_missing_key (m : List Nat) (k : String) (ts : String)
    (hm : ByteOK m) (hne : m ≠ []) (hk : ¬k = "")
    (hts : ts.data.all safeJsonChar = true) :
    verify_payload (make_payload_bytes m (some k) ts) none =
      Except.ok ⟨false, none, none, some "HMAC key required for verification"⟩ := by
  rw [verify_decode_make m (some k) ts hm hts none, payloadJson_eq, verify_parsed_env]
  have h := keyTruthy_some k hk
  rw [if_pos h, Option.getD_some, if_pos h]
  exact congrArg Except.ok
    (verify_fields_hmac_nokey m _ ts.data
      (b64encodeL_ne_nil _ (compute_hmac_ne_nil m k)) hm hne)

/-- Witness for C4's amended claim at `m = b"h"`, key `"kk"`, `ts = "u"`. -/
theorem C4_missing_key_witness :
    verify_payload (make_payload_bytes [104] (some "kk") "u") none =
      Except.ok ⟨false, none, none, some "HMAC key required for verification"⟩ :=
  C4_missing_key [104] "kk" "u" (by intro b hb; simp at hb; omega) (by simp)
    (by decide) (by decide)

/-- The entire hash-mode arm of `verify_fields` never consults the key: the
only occurrence of `key` sits under the decidably-false `mode == 'hmac'`
test. -/
theorem verify_fields_hash_key_irrel (mac msg ts : Option Json) (k1 k2 : Option String) :
    verify_fields (some (Json.str "hash".data)) mac msg ts k1 =
    verify_fields (some (Json.str "hash".data)) mac msg ts k2 := by
  rfl

/-- C10.  A token built with no key is a hash-mode token; verifying it never
consults the supplied key, so any two keys (or none) produce the identical
verdict — validity, message, meta and reason. -/
theorem C10_hash_ignores_key (m : List Nat) (ts : String) (k1 k2 : Option String)
    (hm : ByteOK m) (hts : ts.data.all safeJsonChar = true) :
    verify_payload (make_payload_bytes m none ts) k1 =
    verify_payload (make_payload_bytes m none ts) k2 := by
  rw [verify_decode_make m none ts hm hts k1, verify_decode_make m none ts hm hts k2,
    payloadJson_eq, verify_parsed_env, verify_parsed_env]
  rw [if_neg (by simp [keyTruthy])]
  rw [if_neg (by simp [keyTruthy])]
  exact congrArg Except.ok (verify_fields_hash_key_irrel _ _ _ k1 k2)

/-- Witness for C10 at `m = b"h"`, `ts = "t"`, keys `None` vs `"x"`. -/
theorem C10_hash_ignores_key_witness :
    verify_payload (make_payload_bytes [104] none "t") none =
    verify_payload (make_payload_bytes [104] none "t") (some "x") :=
  C10_hash_ignores_key [104] "t" none (some "x")
    (by intro b hb; simp at hb; omega) (by decide)

theorem pyGet_cons_ne (k0 k : List Char) (v : Json) (fs : List (List Char × Json))
    (h : ¬k0 = k) : pyGet ((k0, v) :: fs) k = pyGet fs k := by
  unfold pyGet
  rw [List.foldl_cons]
  simp [h]

theorem verify_parsed_obj (fs : List (List Char × Json)) (key : Option String) :
    verify_parsed (Json.obj fs) key =
      Except.ok (verify_fields (pyGet fs "mode".data) (pyGet fs "mac".data)
        (pyGet fs "msg_b64".data) (pyGet fs "ts".data) key) := by
  rfl

/-- C3 (amended).  The verifier never reads the `v` field: for every parsed
envelope, replacing the version value by anything at all (including values
different from 1) leaves the verdict bit-for-bit unchanged — unknown
versions are not rejected. -/
theorem C3_version_ignored (v1 v2 : Json) (fs : List (List Char × Json))
    (key : Option String) :
    verify_parsed (Json.obj (("v".data, v1) :: fs)) key =
    verify_parsed (Json.obj (("v".data, v2) :: fs)) key := by
  rw [verify_parsed_obj, verify_parsed_obj,
    pyGet_cons_ne _ _ _ _ (by decide), pyGet_cons_ne _ _ _ _ (by decide),
    pyGet_cons_ne _ _ _ _ (by decide), pyGet_cons_ne _ _ _ _ (by decide),
    pyGet_cons_ne _ _ _ _ (by decide), pyGet_cons_ne _ _ _ _ (by decide),
    pyGet_cons_ne _ _ _ _ (by decide), pyGet_cons_ne _ _ _ _ (by decide)]

set_option maxRecDepth 100000 in
set_option maxHeartbeats 1000000 in
/-- C3.  A token whose decoded envelope carries `v = 2` as its single
version field (first conjunct: the verifier's own decode pipeline yields
exactly that five-field object) still verifies with `valid = true`
(second conjunct): the verifier proceeds instead of rejecting the unknown
version. -/
theorem C3_counterexample :
    (urlsafeB64decodeL (String.mk (urlsafeB64encodeL (utf8Encode (jsonDumps (Json.obj
        [("v".data, Json.num 2), ("mode".data, Json.str "hash".data),
         ("mac".data, Json.str (bytesToHexL (compute_hash [104, 105]))),
         ("msg_b64".data, Json.str (b64encodeL [104, 105])),
         ("ts".data, Json.str "t".data)]))))).data).bind jsonLoadsBytes =
      some (Json.obj
        [("v".data, Json.num 2), ("mode".data, Json.str "hash".data),
         ("mac".data, Json.str (bytesToHexL (compute_hash [104, 105]))),
         ("msg_b64".data, Json.str (b64encodeL [104, 105])),
         ("ts".data, Json.str "t".data)]) ∧
    verify_payload
      ⟨urlsafeB64encodeL (utf8Encode (jsonDumps (Json.obj
        [("v".data, Json.num 2), ("mode".data, Json.str "hash".data),
         ("mac".data, Json.str (bytesToHexL (compute_hash [104, 105]))),
         ("msg_b64".data, Json.str (b64encodeL [104, 105])),
         ("ts".data, Json.str "t".data)])))⟩ none =
      Except.ok ⟨true, some "hi",
        some (Json.str "hash".data, some (Json.str "t".data)), none⟩ := by
  exact ⟨rfl, rfl⟩

/-- `verify_fields` uses the `ts` value only inside the advisory `meta`
pair: validity and reason are independent of it. -/
theorem verify_fields_ts_irrel (mo mac msg ts1 ts2 : Option Json) (key : Option String) :
    (verify_fields mo mac msg ts1 key).valid = (verify_fields mo mac msg ts2 key).valid ∧
    (verify_fields mo mac msg ts1 key).reason = (verify_fields mo mac msg ts2 key).reason := by
  unfold verify_fields
  by_cases hg : (!(optTruthy mo && optTruthy mac && optTruthy msg)) = true
  · rw [if_pos hg, if_pos hg]
    exact ⟨rfl, rfl⟩
  · rw [if_neg hg, if_neg hg]
    rcases msg with _ | jm
    · exact ⟨rfl, rfl⟩
    rcases jm with _ | b | n | l | sm | a | o
    on_goal 5 =>
      rcases hdec : b64decodeStr sm with _ | bytes
      · simp [hdec]
      simp only [hdec]
      rcases mo with _ | jmo
      · exact ⟨rfl, rfl⟩
      rcases jmo with _ | b2 | n2 | l2 | smo | a2 | o2
      on_goal 5 =>
        by_cases hhm : smo = "hmac".data
        · subst hhm
          simp only [if_pos rfl]
          by_cases hkt : (!keyTruthy key) = true
          · rw [if_pos hkt, if_pos hkt]
            exact ⟨rfl, rfl⟩
          · rw [if_neg hkt, if_neg hkt]
            rcases mac with _ | jmac
            · exact ⟨rfl, rfl⟩
            rcases jmac with _ | b3 | n3 | l3 | smac | a3 | o3
            on_goal 5 =>
              rcases hdec2 : b64decodeStr smac with _ | provided
              · simp [hdec2]
              simp only [hdec2]
              by_cases heq : compute_hmac bytes (Option.getD key "") = provided
              · rw [if_pos heq, if_pos heq]
                exact ⟨rfl, rfl⟩
              · rw [if_neg heq, if_neg heq]
                exact ⟨rfl, rfl⟩
            all_goals exact ⟨rfl, rfl⟩
        · simp only [if_neg hhm]
          by_cases hha : smo = "hash".data
          · subst hha
            rcases mac with _ | jmac
            · exact ⟨rfl, rfl⟩
            rcases jmac with _ | b3 | n3 | l3 | smac | a3 | o3
            on_goal 5 =>
              by_cases heq : smac = bytesToHexL (compute_hash bytes)
              · simp [heq]
              · simp [heq]
            all_goals exact ⟨rfl, rfl⟩
          · simp [hhm, hha]
      all_goals exact ⟨rfl, rfl⟩
    all_goals exact ⟨rfl, rfl⟩

/-- C9.  The timestamp is advisory: for any two parsed envelopes that agree
on every field other than `ts`, verification returns verdicts with the same
validity and the same reason (the `ts` value surfaces only inside the
advisory `meta`). -/
theorem C9_timestamp_advisory (fs1 fs2 : List (List Char × Json)) (key : Option String)
    (h : ∀ k, ¬k = "ts".data → pyGet fs1 k = pyGet fs2 k) :
    ∃ v1 v2, verify_parsed (Json.obj fs1) key = Except.ok v1 ∧
      verify_parsed (Json.obj fs2) key = Except.ok v2 ∧
      v1.valid = v2.valid ∧ v1.reason = v2.reason := by
  refine ⟨_, _, rfl, rfl, ?_, ?_⟩
  · rw [h "mode".data (by decide), h "mac".data (by decide), h "msg_b64".data (by decide)]
    exact (verify_fields_ts_irrel (pyGet fs2 "mode".data) (pyGet fs2 "mac".data)
      (pyGet fs2 "msg_b64".data) (pyGet fs1 "ts".data) (pyGet fs2 "ts".data) key).1
  · rw [h "mode".data (by decide), h "mac".data (by decide), h "msg_b64".data (by decide)]
    exact (verify_fields_ts_irrel (pyGet fs2 "mode".data) (pyGet fs2 "mac".data)
      (pyGet fs2 "msg_b64".data) (pyGet fs1 "ts".data) (pyGet fs2 "ts".data) key).2

/-- Witness for C9 at two one-field-apart envelopes. -/
theorem C9_timestamp_advisory_witness :
    ∃ v1 v2,
      verify_parsed (Json.obj [("mode".data, Json.str "zz".data),
        ("ts".data, Json.str "a".data)]) none = Except.ok v1 ∧
      verify_parsed (Json.obj [("mode".data, Json.str "zz".data),
        ("ts".data, Json.str "b".data)]) none = Except.ok v2 ∧
      v1.valid = v2.valid ∧ v1.reason = v2.reason :=
  C9_timestamp_advisory
    [("mode".data, Json.str "zz".data), ("ts".data, Json.str "a".data)]
    [("mode".data, Json.str "zz".data), ("ts".data, Json.str "b".data)] none
    (fun k hk => by
      simp only [pyGet, List.foldl_cons, List.foldl_nil]
      by_cases hh : "ts".data = k
      · exact absurd hh.symm hk
      · simp [hh])

theorem urlsafeChar_of_b64 (c : Char)
    (h : (b64CharVal c).isSome = true ∨ c = '=') :
    isUrlsafeTokenChar (if c = '+' then '-' else if c = '/' then '_' else c) = true := by
  rcases h with h | h
  · rcases b64CharVal_ranges c h with hr | hr | hr | hr | hr
    · have h1 : ¬c = '+' := by rintro rfl; exact absurd hr (by decide)
      have h2 : ¬c = '/' := by rintro rfl; exact absurd hr (by decide)
      have ha : isAsciiAlpha c = true := by
        unfold isAsciiAlpha
        simp only [Bool.or_eq_true, Bool.and_eq_true, decide_eq_true_eq]
        omega
      rw [if_neg h1, if_neg h2]
      simp [isUrlsafeTokenChar, ha]
    · have h1 : ¬c = '+' := by rintro rfl; exact absurd hr (by decide)
      have h2 : ¬c = '/' := by rintro rfl; exact absurd hr (by decide)
      have ha : isAsciiAlpha c = true := by
        unfold isAsciiAlpha
        simp only [Bool.or_eq_true, Bool.and_eq_true, decide_eq_true_eq]
        omega
      rw [if_neg h1, if_neg h2]
      simp [isUrlsafeTokenChar, ha]
    · have h1 : ¬c = '+' := by rintro rfl; exact absurd hr (by decide)
      have h2 : ¬c = '/' := by rintro rfl; exact absurd hr (by decide)
      have ha : isAsciiDigit c = true := by
        unfold isAsciiDigit
        simp only [Bool.and_eq_true, decide_eq_true_eq]
        omega
      rw [if_neg h1, if_neg h2]
      simp [isUrlsafeTokenChar, ha]
    · have h1 : c = '+' := Char.ext (UInt32.ext (by
        have : c.toNat = 43 := hr
        unfold Char.toNat at this
        simpa using this))
      subst h1
      decide
    · have h1 : c = '/' := Char.ext (UInt32.ext (by
        have : c.toNat = 47 := hr
        unfold Char.toNat at this
        simpa using this))
      subst h1
      decide
  · subst h
    decide

theorem make_payload_chars (m : List Nat) (key : Option String) (ts : String) :
    (make_payload_bytes m key ts).data.all isUrlsafeTokenChar = true := by
  show (urlsafeB64encodeL (utf8Encode (jsonDumps (payloadJson m key ts)))).all
    isUrlsafeTokenChar = true
  unfold urlsafeB64encodeL
  rw [List.all_map]
  refine List.all_eq_true.mpr (fun c hc => ?_)
  exact urlsafeChar_of_b64 c (b64encodeL_chars _ (utf8Encode_byteOK _) c hc)

theorem make_payload_ne_nil (m : List Nat) (key : Option String) (ts : String) :
    (make_payload_bytes m key ts).data ≠ [] := by
  show urlsafeB64encodeL (utf8Encode (jsonDumps (payloadJson m key ts))) ≠ []
  have hj : utf8Encode (jsonDumps (payloadJson m key ts)) ≠ [] := by
    rw [payloadJson_eq, jsonDumps_env_eq, utf8Encode_cons,
      utf8EncodeChar_ascii '\x7b' (by decide)]
    simp
  unfold urlsafeB64encodeL
  intro hmap
  exact b64encodeL_ne_nil _ hj (List.map_eq_nil_iff.mp hmap)

theorem urlsafe_excludes (c : Char) (h : isUrlsafeTokenChar c = true) :
    ¬c = '&' ∧ ¬c = '+' ∧ ¬c = '%' := by
  refine ⟨?_, ?_, ?_⟩ <;> rintro rfl <;> exact absurd h (by decide)

theorem splitSep_no_sep (sep : Char) :
    ∀ l : List Char, (∀ c ∈ l, ¬c = sep) → splitSep sep l = [l]
  | [], _ => rfl
  | c :: rest, h => by
    simp only [splitSep]
    rw [if_neg (h c (List.mem_cons_self c rest)),
      splitSep_no_sep sep rest (fun x hx => h x (List.mem_cons_of_mem c hx))]

theorem unquoteGo_no_pct : ∀ s : List Char, (∀ c ∈ s, ¬c = '%') →
    unquoteGo s.length s [] = s
  | [], _ => rfl
  | c :: rest, h => by
    show unquoteGo (rest.length + 1) (c :: rest) [] = c :: rest
    unfold unquoteGo
    rw [if_neg (h c (List.mem_cons_self c rest)),
      unquoteGo_no_pct rest (fun x hx => h x (List.mem_cons_of_mem c hx))]
    rfl

theorem unquoteL_no_pct (s : List Char) (h : ∀ c ∈ s, ¬c = '%') : unquoteL s = s :=
  unquoteGo_no_pct s h

theorem plusToSpace_id (s : List Char) (h : ∀ c ∈ s, ¬c = '+') : plusToSpace s = s := by
  unfold plusToSpace
  conv_rhs => rw [show s = s.map id from (List.map_id s).symm]
  exact List.map_congr_left (fun c hc => by simp [h c hc])

theorem parse_qsl_data_token (tok : List Char)
    (hchars : tok.all isUrlsafeTokenChar = true) (hne : tok ≠ []) :
    parse_qslL ("data=".data ++ tok) = [("data".data, tok)] := by
  have hmem : ∀ c ∈ tok, isUrlsafeTokenChar c = true :=
    fun c hc => List.all_eq_true.mp hchars c hc
  have hamp : ∀ c ∈ ("data=".data ++ tok), ¬c = '&' := by
    intro c hc hceq
    subst hceq
    rcases List.mem_append.mp hc with hin | hin
    · exact absurd hin (by decide)
    · exact (urlsafe_excludes _ (hmem _ hin)).1 rfl
  have htoklen : ("data=".data ++ tok).length = tok.length + 5 := by
    simp
  have hf : (fun nv : List Char =>
      if nv.isEmpty then none
      else
        let name := nv.takeWhile (fun c => !(c == '='))
        if name.length = nv.length then none
        else
          let value := nv.drop (name.length + 1)
          if value.isEmpty then none
          else some (unquoteL (plusToSpace name), unquoteL (plusToSpace value)))
      ("data=".data ++ tok) = some ("data".data, tok) := by
    simp only []
    rw [show ("data=".data ++ tok) = 'd' :: 'a' :: 't' :: 'a' :: '=' :: tok from rfl]
    rw [show List.isEmpty ('d' :: 'a' :: 't' :: 'a' :: '=' :: tok) = false from rfl]
    rw [if_neg (by simp)]
    rw [show List.takeWhile (fun c => !(c == '=')) ('d' :: 'a' :: 't' :: 'a' :: '=' :: tok) =
        "data".data from rfl]
    rw [if_neg (by
      rw [show ("data".data).length = 4 from rfl]
      simp only [List.length_cons]
      omega)]
    rw [show List.drop (("data".data).length + 1) ('d' :: 'a' :: 't' :: 'a' :: '=' :: tok) =
        tok from rfl]
    rw [if_neg (by
      cases tok with
      | nil => exact absurd rfl hne
      | cons a t => simp)]
    rw [show unquoteL (plusToSpace "data".data) = "data".data from rfl]
    rw [plusToSpace_id tok (fun c hc => (urlsafe_excludes c (hmem c hc)).2.1),
      unquoteL_no_pct tok (fun c hc => (urlsafe_excludes c (hmem c hc)).2.2)]
  unfold parse_qslL
  rw [splitSep_no_sep '&' _ hamp]
  simp only [List.filterMap_cons, List.filterMap_nil, hf]

/-- C8.  The builder's token is URL-safe end to end: every character is in
the URL-safe base64 alphabet (letters, digits, `-`, `_`) or padding `=`;
the padding is kept and the token decodes back to the exact serialized
envelope bytes; and pasted verbatim as `data=<token>` into a query string,
`parse_qsl` recovers the token unchanged — no character needed escaping. -/
theorem C8_token_url_safety (m : List Nat) (key : Option String) (ts : String) :
    (make_payload_bytes m key ts).data.all isUrlsafeTokenChar = true ∧
    urlsafeB64decodeL (make_payload_bytes m key ts).data =
      some (utf8Encode (jsonDumps (payloadJson m key ts))) ∧
    parse_qslL ("data=".data ++ (make_payload_bytes m key ts).data) =
      [("data".data, (make_payload_bytes m key ts).data)] := by
  refine ⟨make_payload_chars m key ts, ?_, ?_⟩
  · show urlsafeB64decodeL (urlsafeB64encodeL (utf8Encode (jsonDumps (payloadJson m key ts)))) = _
    exact urlsafeB64decode_encode _ (utf8Encode_byteOK _)
  · exact parse_qsl_data_token _ (make_payload_chars m key ts) (make_payload_ne_nil m key ts)

theorem find_key_none (k : List Char) :
    ∀ l : List (List Char × List (List Char)), (∀ p ∈ l, ¬p.1 = k) →
      l.find? (fun q => q.1 = k) = none
  | [], _ => rfl
  | q :: t, h => by
    rw [List.find?_cons]
    rw [show (decide (q.1 = k)) = false from decide_eq_false (h q (List.mem_cons_self q t))]
    exact find_key_none k t (fun p hp => h p (List.mem_cons_of_mem q hp))

theorem find_key_mem (k : List Char) (v : List (List Char)) :
    ∀ l : List (List Char × List (List Char)),
      l.Pairwise (fun a b => ¬a.1 = b.1) → (k, v) ∈ l →
      l.find? (fun q => q.1 = k) = some (k, v)
  | [], _, hm => absurd hm (by simp)
  | q :: t, hp, hm => by
    rw [List.find?_cons]
    rcases List.mem_cons.mp hm with hm | hm
    · subst hm
      simp
    · have hq : ¬q.1 = k := fun he => (List.pairwise_cons.mp hp).1 (k, v) hm he
      rw [show (decide (q.1 = k)) = false from decide_eq_false hq]
      exact find_key_mem k v t (List.pairwise_cons.mp hp).2 hm

theorem parse_qsL_step_keys (d : List (List Char × List (List Char)))
    (kv : List Char × List Char)
    (hd : d.Pairwise (fun a b => ¬a.1 = b.1)) :
    (if d.any (fun p => p.1 = kv.1) then
        d.map (fun p => if p.1 = kv.1 then (p.1, p.2 ++ [kv.2]) else p)
      else d ++ [(kv.1, [kv.2])]).Pairwise (fun a b => ¬a.1 = b.1) := by
  by_cases h : d.any (fun p => p.1 = kv.1) = true
  · rw [if_pos h]
    have hkey : ∀ p : List Char × List (List Char),
        (if p.1 = kv.1 then (p.1, p.2 ++ [kv.2]) else p).1 = p.1 := by
      intro p
      by_cases hh : p.1 = kv.1 <;> simp [hh]
    exact List.Pairwise.map _ (fun a b hab => by rw [hkey a, hkey b]; exact hab) hd
  · rw [if_neg h]
    rw [List.pairwise_append]
    refine ⟨hd, List.pairwise_singleton _ _, ?_⟩
    intro a ha b hb
    rw [List.mem_singleton] at hb
    subst hb
    intro he
    exact h (List.any_eq_true.mpr ⟨a, ha, by simp [he]⟩)

theorem groupFold_keys : ∀ (pairs : List (List Char × List Char))
    (d : List (List Char × List (List Char))),
    d.Pairwise (fun a b => ¬a.1 = b.1) →
    (pairs.foldl
      (fun d kv =>
        if d.any (fun p => p.1 = kv.1) then
          d.map (fun p => if p.1 = kv.1 then (p.1, p.2 ++ [kv.2]) else p)
        else d ++ [(kv.1, [kv.2])])
      d).Pairwise (fun a b => ¬a.1 = b.1)
  | [], _, hd => hd
  | kv :: rest, d, hd => by
    rw [List.foldl_cons]
    exact groupFold_keys rest _ (parse_qsL_step_keys d kv hd)

theorem parse_qsL_keys (qs : List Char) :
    (parse_qsL qs).Pairwise (fun a b => ¬a.1 = b.1) := by
  unfold parse_qsL
  exact groupFold_keys _ [] List.Pairwise.nil

/-- C7.  Input normalization of a scanned string: if it parses as an
`http`/`https` URL whose query carries a `data` parameter, the token is that
parameter's first value; if the URL carries no `data` parameter, or the
scheme is not `http`/`https`, or `urlparse` raises, the whole raw string is
the token — a parse failure is never a hard failure. -/
theorem C7_input_normalization (raw : String) :
    (∀ p v vs, urlparseE raw.data = Except.ok p →
      (p.scheme = "http".data ∨ p.scheme = "https".data) →
      ("data".data, v :: vs) ∈ parse_qsL p.query →
      decode_qr_extract raw = ⟨v⟩) ∧
    (∀ p, urlparseE raw.data = Except.ok p →
      (∀ q ∈ parse_qsL p.query, ¬q.1 = "data".data) →
      decode_qr_extract raw = raw) ∧
    (∀ p, urlparseE raw.data = Except.ok p →
      ¬(p.scheme = "http".data ∨ p.scheme = "https".data) →
      decode_qr_extract raw = raw) ∧
    (∀ e, urlparseE raw.data = Except.error e → decode_qr_extract raw = raw) := by
  refine ⟨?_, ?_, ?_, ?_⟩
  · intro p v vs hp hs hm
    unfold decode_qr_extract
    simp only [hp]
    rw [if_pos hs, find_key_mem "data".data (v :: vs) _ (parse_qsL_keys _) hm]
  · intro p hp hnm
    unfold decode_qr_extract
    simp only [hp]
    by_cases hs : p.scheme = "http".data ∨ p.scheme = "https".data
    · rw [if_pos hs, find_key_none "data".data _ hnm]
    · rw [if_neg hs]
  · intro p hp hs
    unfold decode_qr_extract
    simp only [hp]
    rw [if_neg hs]
  · intro e he
    unfold decode_qr_extract
    simp only [he]

/-- Witness for C7: a URL with a `data` parameter, a URL without, a
non-`http` scheme, and a string on which `urlparse` raises. -/
theorem C7_input_normalization_witness :
    decode_qr_extract "http://h/p?x=1&data=abc" = "abc" ∧
    decode_qr_extract "http://h/p?x=1" = "http://h/p?x=1" ∧
    decode_qr_extract "ftp://h/p?data=z" = "ftp://h/p?data=z" ∧
    decode_qr_extract "http://[1/p" = "http://[1/p" :=
  ⟨(C7_input_normalization "http://h/p?x=1&data=abc").1 _ "abc".data [] rfl
      (Or.inl rfl) (by decide),
   (C7_input_normalization "http://h/p?x=1").2.1 _ rfl (by decide),
   (C7_input_normalization "ftp://h/p?data=z").2.2.1 _ rfl (by decide),
   (C7_input_normalization "http://[1/p").2.2.2 "Invalid IPv6 URL" rfl⟩

theorem takeWhile_all_append (P : Char → Bool) :
    ∀ (l : List Char), (∀ c ∈ l, P c = true) → ∀ (x : Char), P x = false →
      ∀ (r : List Char), (l ++ x :: r).takeWhile P = l
  | [], _, x, hx, r => by simp [List.takeWhile_cons, hx]
  | c :: t, h, x, hx, r => by
    rw [List.cons_append, List.takeWhile_cons, h c (List.mem_cons_self c t)]
    rw [takeWhile_all_append P t (fun d hd => h d (List.mem_cons_of_mem c hd)) x hx r]
    simp

theorem dropWhile_all_append (P : Char → Bool) :
    ∀ (l : List Char), (∀ c ∈ l, P c = true) → ∀ (x : Char), P x = false →
      ∀ (r : List Char), (l ++ x :: r).dropWhile P = x :: r
  | [], _, x, hx, r => by simp [List.dropWhile_cons, hx]
  | c :: t, h, x, hx, r => by
    rw [List.cons_append, List.dropWhile_cons, h c (List.mem_cons_self c t)]
    rw [dropWhile_all_append P t (fun d hd => h d (List.mem_cons_of_mem c hd)) x hx r]
    simp

theorem contains_false (a : Char) :
    ∀ l : List Char, (∀ c ∈ l, ¬c = a) → l.contains a = false
  | [], _ => rfl
  | c :: t, h => by
    rw [List.contains_cons]
    rw [show (a == c) = false from beq_eq_false_iff_ne.mpr
      (fun he => h c (List.mem_cons_self c t) he.symm)]
    rw [contains_false a t (fun d hd => h d (List.mem_cons_of_mem c hd))]
    rfl

theorem contains_true (a : Char) : ∀ l : List Char, a ∈ l → l.contains a = true
  | [], h => absurd h (by simp)
  | c :: t, h => by
    rw [List.contains_cons]
    rcases List.mem_cons.mp h with h | h
    · subst h
      simp
    · rw [contains_true a t h]
      simp

theorem splitSep_append_chunk (sep : Char) (l : List Char) (h : ∀ c ∈ l, ¬c = sep)
    (r : List Char) : splitSep sep (l ++ sep :: r) = l :: splitSep sep r := by
  induction l with
  | nil =>
    simp [splitSep]
  | cons c t ih =>
    rw [List.cons_append]
    simp only [splitSep]
    rw [if_neg (h c (List.mem_cons_self c t)),
      ih (fun d hd => h d (List.mem_cons_of_mem c hd))]

theorem alwaysSafe_facts (c : Char) (h : isAlwaysSafe c = true) :
    ¬c = '%' ∧ ¬c = '+' ∧ ¬c = '&' ∧ ¬c = '=' ∧ ¬c = '#' ∧ ¬c = '?' ∧ ¬c = ':' ∧
    ¬c = '/' ∧ ¬c = Char.ofNat 9 ∧ ¬c = Char.ofNat 13 ∧ ¬c = Char.ofNat 10 := by
  refine ⟨?_, ?_, ?_, ?_, ?_, ?_, ?_, ?_, ?_, ?_, ?_⟩ <;> rintro rfl <;>
    exact absurd h (by decide)

theorem qsChunk_eval (k v : List Char) (hk0 : k ≠ []) (hv0 : v ≠ [])
    (hk : ∀ c ∈ k, isAlwaysSafe c = true) (hv : ∀ c ∈ v, isAlwaysSafe c = true) :
    (fun nv : List Char =>
      if nv.isEmpty then none
      else
        let name := nv.takeWhile (fun c => !(c == '='))
        if name.length = nv.length then none
        else
          let value := nv.drop (name.length + 1)
          if value.isEmpty then none
          else some (unquoteL (plusToSpace name), unquoteL (plusToSpace value)))
      (k ++ '=' :: v) = some (k, v) := by
  simp only []
  have hkE : ∀ c ∈ k, (fun c => !(c == '=')) c = true := by
    intro c hc
    simp only [Bool.not_eq_true']
    exact beq_eq_false_iff_ne.mpr (alwaysSafe_facts c (hk c hc)).2.2.2.1
  rw [show ((k ++ '=' :: v).isEmpty) = false from (by
    cases k with
    | nil => exact absurd rfl hk0
    | cons a t => rfl)]
  rw [if_neg (by simp)]
  rw [takeWhile_all_append _ k hkE '=' (by decide) v]
  rw [if_neg (by simp only [List.length_append, List.length_cons]; omega)]
  rw [show List.drop (k.length + 1) (k ++ '=' :: v) = v from (by
    rw [show k ++ '=' :: v = (k ++ ['=']) ++ v from (by simp)]
    exact List.drop_left' (by simp))]
  rw [show (v.isEmpty) = false from (by
    cases v with
    | nil => exact absurd rfl hv0
    | cons a t => rfl)]
  rw [if_neg (by simp)]
  rw [plusToSpace_id k (fun c hc => (alwaysSafe_facts c (hk c hc)).2.1),
    unquoteL_no_pct k (fun c hc => (alwaysSafe_facts c (hk c hc)).1),
    plusToSpace_id v (fun c hc => (alwaysSafe_facts c (hv c hc)).2.1),
    unquoteL_no_pct v (fun c hc => (alwaysSafe_facts c (hv c hc)).1)]

theorem queryString_single (kv : List Char × List Char) :
    queryString [kv] = kv.1 ++ '=' :: kv.2 := by
  simp [queryString]

theorem queryString_cons_cons (kv b : List Char × List Char)
    (t : List (List Char × List Char)) :
    queryString (kv :: b :: t) = (kv.1 ++ '=' :: kv.2) ++ '&' :: queryString (b :: t) := by
  simp [queryString]

theorem queryString_chars : ∀ qs : List (List Char × List Char),
    (∀ kv ∈ qs, (∀ c ∈ kv.1, isAlwaysSafe c = true) ∧ (∀ c ∈ kv.2, isAlwaysSafe c = true)) →
    ∀ c ∈ queryString qs, isAlwaysSafe c = true ∨ c = '=' ∨ c = '&'
  | [], _, c, hc => absurd hc (by simp [queryString])
  | [kv], h, c, hc => by
    rw [queryString_single] at hc
    rcases List.mem_append.mp hc with hc | hc
    · exact Or.inl ((h kv (by simp)).1 c hc)
    · rcases List.mem_cons.mp hc with hc | hc
      · exact Or.inr (Or.inl hc)
      · exact Or.inl ((h kv (by simp)).2 c hc)
  | kv :: b :: t, h, c, hc => by
    rw [queryString_cons_cons] at hc
    rcases List.mem_append.mp hc with hc | hc
    · rcases List.mem_append.mp hc with hc | hc
      · exact Or.inl ((h kv (by simp)).1 c hc)
      · rcases List.mem_cons.mp hc with hc | hc
        · exact Or.inr (Or.inl hc)
        · exact Or.inl ((h kv (by simp)).2 c hc)
    · rcases List.mem_cons.mp hc with hc | hc
      · exact Or.inr (Or.inr hc)
      · exact queryString_chars (b :: t) (fun p hp => h p (List.mem_cons_of_mem kv hp)) c hc

theorem parse_qslL_queryString : ∀ qs : List (List Char × List Char),
    (∀ kv ∈ qs, kv.1 ≠ [] ∧ kv.2 ≠ [] ∧ (∀ c ∈ kv.1, isAlwaysSafe c = true) ∧
      (∀ c ∈ kv.2, isAlwaysSafe c = true)) →
    parse_qslL (queryString qs) = qs
  | [], _ => rfl
  | [kv], h => by
    obtain ⟨hk0, hv0, hk, hv⟩ := h kv (by simp)
    rw [queryString_single ]
    unfold parse_qslL
    have hnoamp : ∀ c ∈ kv.1 ++ '=' :: kv.2, ¬c = '&' := by
      intro c hc
      rcases List.mem_append.mp hc with hc | hc
      · exact (alwaysSafe_facts c (hk c hc)).2.2.1
      · rcases List.mem_cons.mp hc with hc | hc
        · subst hc; decide
        · exact (alwaysSafe_facts c (hv c hc)).2.2.1
    rw [splitSep_no_sep '&' _ hnoamp]
    simp only [List.filterMap_cons, List.filterMap_nil, qsChunk_eval kv.1 kv.2 hk0 hv0 hk hv]
  | kv :: b :: t, h => by
    obtain ⟨hk0, hv0, hk, hv⟩ := h kv (by simp)
    rw [queryString_cons_cons]
    unfold parse_qslL
    have hnoamp : ∀ c ∈ kv.1 ++ '=' :: kv.2, ¬c = '&' := by
      intro c hc
      rcases List.mem_append.mp hc with hc | hc
      · exact (alwaysSafe_facts c (hk c hc)).2.2.1
      · rcases List.mem_cons.mp hc with hc | hc
        · subst hc; decide
        · exact (alwaysSafe_facts c (hv c hc)).2.2.1
    rw [splitSep_append_chunk '&' _ hnoamp _]
    simp only [List.filterMap_cons, qsChunk_eval kv.1 kv.2 hk0 hv0 hk hv]
    have ih := parse_qslL_queryString (b :: t) (fun p hp => h p (List.mem_cons_of_mem kv hp))
    unfold parse_qslL at ih
    rw [ih]

theorem dictFold_disjoint : ∀ (pairs : List (List Char × List Char))
    (d : List (List Char × List Char)),
    pairs.Pairwise (fun a b => ¬a.1 = b.1) →
    (∀ p ∈ d, ∀ q ∈ pairs, ¬p.1 = q.1) →
    pairs.foldl
      (fun d kv =>
        if d.any (fun p => p.1 = kv.1) then
          d.map (fun p => if p.1 = kv.1 then (p.1, kv.2) else p)
        else d ++ [kv])
      d = d ++ pairs
  | [], d, _, _ => by simp
  | kv :: rest, d, hp, hdisj => by
    rw [List.foldl_cons]
    have hany : ¬(d.any (fun p => p.1 = kv.1) = true) := by
      intro ha
      obtain ⟨p, hpd, hpe⟩ := List.any_eq_true.mp ha
      exact hdisj p hpd kv (by simp) (of_decide_eq_true hpe)
    rw [if_neg hany]
    have hdisj2 : ∀ p ∈ d ++ [kv], ∀ q ∈ rest, ¬p.1 = q.1 := by
      intro p hpd q hq
      rcases List.mem_append.mp hpd with hpd | hpd
      · exact hdisj p hpd q (List.mem_cons_of_mem kv hq)
      · rw [List.mem_singleton] at hpd
        subst hpd
        exact (List.pairwise_cons.mp hp).1 q hq
    rw [dictFold_disjoint rest (d ++ [kv]) (List.pairwise_cons.mp hp).2 hdisj2]
    simp

theorem dictOfPairs_nodup (qs : List (List Char × List Char))
    (h : qs.Pairwise (fun a b => ¬a.1 = b.1)) : dictOfPairs qs = qs := by
  unfold dictOfPairs
  rw [dictFold_disjoint qs [] h (by simp)]
  simp

theorem dictSet_append (d : List (List Char × List Char)) (k v : List Char)
    (h : ∀ p ∈ d, ¬p.1 = k) : dictSet d k v = d ++ [(k, v)] := by
  unfold dictSet
  rw [if_neg (by
    intro ha
    obtain ⟨p, hpd, hpe⟩ := List.any_eq_true.mp ha
    exact h p hpd (of_decide_eq_true hpe))]

theorem quotePlusL_safe_id : ∀ s : List Char, (∀ c ∈ s, isAlwaysSafe c = true) →
    quotePlusL s = s
  | [], _ => rfl
  | c :: t, h => by
    unfold quotePlusL
    simp only [List.map_cons, List.flatten_cons, if_pos (h c (List.mem_cons_self c t))]
    have ih := quotePlusL_safe_id t (fun d hd => h d (List.mem_cons_of_mem c hd))
    unfold quotePlusL at ih
    rw [ih]
    rfl

theorem joinAmp : ∀ (l : List (List Char)), l ≠ [] → ∀ (x : List Char),
    ((l ++ [x]).intersperse ['&']).flatten = (l.intersperse ['&']).flatten ++ '&' :: x
  | [], h, _ => absurd rfl h
  | [a], _, x => by simp
  | a :: b :: t, _, x => by
    rw [show (a :: b :: t) ++ [x] = a :: b :: (t ++ [x]) from rfl]
    simp only [List.intersperse_cons₂, List.flatten_cons]
    have ih := joinAmp (b :: t) (by simp) x
    rw [show (b :: t) ++ [x] = b :: (t ++ [x]) from rfl] at ih
    rw [ih]
    simp [List.append_assoc]

theorem urlencodeL_safe_append (qs : List (List Char × List Char)) (tokv : List Char)
    (hqs0 : qs ≠ [])
    (hq : ∀ kv ∈ qs, (∀ c ∈ kv.1, isAlwaysSafe c = true) ∧
      (∀ c ∈ kv.2, isAlwaysSafe c = true)) :
    urlencodeL (qs ++ [("data".data, tokv)]) =
      queryString qs ++ '&' :: ("data".data ++ '=' :: quotePlusL tokv) := by
  unfold urlencodeL
  rw [List.map_append]
  rw [show List.map (fun p => quotePlusL p.1 ++ '=' :: quotePlusL p.2)
      [(("data".data : List Char), tokv)] =
      [quotePlusL "data".data ++ '=' :: quotePlusL tokv] from rfl]
  rw [joinAmp _ (by
    cases qs with
    | nil => exact absurd rfl hqs0
    | cons a t => simp) _]
  have hmap : qs.map (fun p => quotePlusL p.1 ++ '=' :: quotePlusL p.2) =
      qs.map (fun p => p.1 ++ '=' :: p.2) :=
    List.map_congr_left (fun kv hkv => by
      rw [quotePlusL_safe_id _ (hq kv hkv).1, quotePlusL_safe_id _ (hq kv hkv).2])
  rw [hmap]
  rw [show quotePlusL ("data".data) = "data".data from rfl]
  rfl

theorem notCtrl_pred (c : Char) (h9 : ¬c = Char.ofNat 9) (h13 : ¬c = Char.ofNat 13)
    (h10 : ¬c = Char.ofNat 10) :
    (!(c == Char.ofNat 9) && !(c == Char.ofNat 13) && !(c == Char.ofNat 10)) = true := by
  simp [h9, h13, h10]

theorem schemeChar_facts (c : Char) (h : isSchemeChar c = true) :
    ¬c = ':' ∧ ¬c = Char.ofNat 9 ∧ ¬c = Char.ofNat 13 ∧ ¬c = Char.ofNat 10 := by
  refine ⟨?_, ?_, ?_, ?_⟩ <;> rintro rfl <;> exact absurd h (by decide)

theorem urlparseE_eval (c0 : Char) (s0 n p q f : List Char)
    (hc0 : isAsciiAlpha c0 = true)
    (hs : ∀ c ∈ c0 :: s0, isSchemeChar c = true)
    (hlow : (c0 :: s0).map asciiLower = c0 :: s0)
    (hn : ∀ c ∈ n, ¬c = '/' ∧ ¬c = '?' ∧ ¬c = '#' ∧ ¬c = '[' ∧ ¬c = ']' ∧
      ¬c = Char.ofNat 9 ∧ ¬c = Char.ofNat 13 ∧ ¬c = Char.ofNat 10)
    (hp : ∀ c ∈ p, ¬c = '?' ∧ ¬c = '#' ∧ ¬c = ';' ∧ ¬c = Char.ofNat 9 ∧
      ¬c = Char.ofNat 13 ∧ ¬c = Char.ofNat 10)
    (hp0 : p = [] ∨ ∃ t, p = '/' :: t)
    (hq : ∀ c ∈ q, ¬c = '#' ∧ ¬c = Char.ofNat 9 ∧ ¬c = Char.ofNat 13 ∧ ¬c = Char.ofNat 10)
    (hf : ∀ c ∈ f, ¬c = Char.ofNat 9 ∧ ¬c = Char.ofNat 13 ∧ ¬c = Char.ofNat 10) :
    urlparseE ((c0 :: s0) ++ ':' :: '/' :: '/' :: (n ++ (p ++ ('?' :: (q ++ ('#' :: f)))))) =
      Except.ok ⟨c0 :: s0, n, p, [], q, f⟩ := by
  have hsf := fun c hc => schemeChar_facts c (hs c hc)
  have hfilter : ((c0 :: s0) ++ ':' :: '/' :: '/' :: (n ++ (p ++ ('?' :: (q ++ ('#' :: f)))))).filter
      (fun c => !(c == Char.ofNat 9) && !(c == Char.ofNat 13) && !(c == Char.ofNat 10)) =
      (c0 :: s0) ++ ':' :: '/' :: '/' :: (n ++ (p ++ ('?' :: (q ++ ('#' :: f))))) := by
    rw [List.filter_eq_self]
    intro c hc
    rcases List.mem_append.mp hc with hc | hc
    · obtain ⟨_, h2, h3, h4⟩ := hsf c hc
      exact notCtrl_pred c h2 h3 h4
    · rcases List.mem_cons.mp hc with rfl | hc
      · decide
      rcases List.mem_cons.mp hc with rfl | hc
      · decide
      rcases List.mem_cons.mp hc with rfl | hc
      · decide
      rcases List.mem_append.mp hc with hc | hc
      · obtain ⟨_, _, _, _, _, h9, h13, h10⟩ := hn c hc
        exact notCtrl_pred c h9 h13 h10
      rcases List.mem_append.mp hc with hc | hc
      · obtain ⟨_, _, _, h9, h13, h10⟩ := hp c hc
        exact notCtrl_pred c h9 h13 h10
      rcases List.mem_cons.mp hc with rfl | hc
      · decide
      rcases List.mem_append.mp hc with hc | hc
      · obtain ⟨_, h9, h13, h10⟩ := hq c hc
        exact notCtrl_pred c h9 h13 h10
      rcases List.mem_cons.mp hc with rfl | hc
      · decide
      obtain ⟨h9, h13, h10⟩ := hf c hc
      exact notCtrl_pred c h9 h13 h10
  have hpre : ((c0 :: s0) ++ ':' :: '/' :: '/' :: (n ++ (p ++ ('?' :: (q ++ ('#' :: f)))))).takeWhile
      (fun c => !(c == ':')) = c0 :: s0 :=
    takeWhile_all_append _ (c0 :: s0)
      (fun c hc => by simp [(hsf c hc).1]) ':' (by decide) _
  have hlen : (c0 :: s0).length <
      ((c0 :: s0) ++ ':' :: '/' :: '/' :: (n ++ (p ++ ('?' :: (q ++ ('#' :: f)))))).length := by
    simp only [List.length_append, List.length_cons]
    omega
  have hdrop : ((c0 :: s0) ++ ':' :: '/' :: '/' :: (n ++ (p ++ ('?' :: (q ++ ('#' :: f)))))).drop
      ((c0 :: s0).length + 1) = '/' :: '/' :: (n ++ (p ++ ('?' :: (q ++ ('#' :: f))))) := by
    rw [show (c0 :: s0) ++ ':' :: '/' :: '/' :: (n ++ (p ++ ('?' :: (q ++ ('#' :: f))))) =
      ((c0 :: s0) ++ [':']) ++ '/' :: '/' :: (n ++ (p ++ ('?' :: (q ++ ('#' :: f)))))
      from (by simp)]
    exact List.drop_left' (by simp)
  have hP2 : ∀ c ∈ n, (fun c => !(c == '/') && !(c == '?') && !(c == '#')) c = true := by
    intro c hc
    obtain ⟨h1, h2, h3, _⟩ := hn c hc
    simp [h1, h2, h3]
  have htake2 : (n ++ (p ++ ('?' :: (q ++ ('#' :: f))))).takeWhile
      (fun c => !(c == '/') && !(c == '?') && !(c == '#')) = n := by
    rcases hp0 with rfl | ⟨t, rfl⟩
    · exact takeWhile_all_append _ n hP2 '?' (by decide) _
    · exact takeWhile_all_append _ n hP2 '/' (by decide) _
  have hdrop2 : (n ++ (p ++ ('?' :: (q ++ ('#' :: f))))).dropWhile
      (fun c => !(c == '/') && !(c == '?') && !(c == '#')) = p ++ ('?' :: (q ++ ('#' :: f))) := by
    rcases hp0 with rfl | ⟨t, rfl⟩
    · exact dropWhile_all_append _ n hP2 '?' (by decide) _
    · exact dropWhile_all_append _ n hP2 '/' (by decide) _
  have hnb1 : n.contains '[' = false := contains_false _ n (fun c hc => (hn c hc).2.2.2.1)
  have hnb2 : n.contains ']' = false := contains_false _ n (fun c hc => (hn c hc).2.2.2.2.1)
  have hfragchars : ∀ c ∈ p ++ ('?' :: q), (fun c => !(c == '#')) c = true := by
    intro c hc
    rcases List.mem_append.mp hc with hc | hc
    · simp [(hp c hc).2.1]
    rcases List.mem_cons.mp hc with rfl | hc
    · decide
    · simp [(hq c hc).1]
  have hshape : p ++ ('?' :: (q ++ ('#' :: f))) = (p ++ ('?' :: q)) ++ '#' :: f := by
    simp
  have hfrag1 : (p ++ ('?' :: (q ++ ('#' :: f)))).contains '#' = true :=
    contains_true '#' _ (by simp)
  have hfrag2 : (p ++ ('?' :: (q ++ ('#' :: f)))).takeWhile (fun c => !(c == '#')) =
      p ++ ('?' :: q) := by
    rw [hshape]
    exact takeWhile_all_append _ _ hfragchars '#' (by decide) _
  have hfrag3 : (p ++ ('?' :: (q ++ ('#' :: f)))).dropWhile (fun c => !(c == '#')) =
      '#' :: f := by
    rw [hshape]
    exact dropWhile_all_append _ _ hfragchars '#' (by decide) _
  have hpq1 : (p ++ ('?' :: q)).contains '?' = true := contains_true '?' _ (by simp)
  have hpq2 : (p ++ ('?' :: q)).takeWhile (fun c => !(c == '?')) = p :=
    takeWhile_all_append _ p (fun c hc => by simp [(hp c hc).1]) '?' (by decide) q
  have hpq3 : (p ++ ('?' :: q)).dropWhile (fun c => !(c == '?')) = '?' :: q :=
    dropWhile_all_append _ p (fun c hc => by simp [(hp c hc).1]) '?' (by decide) q
  have hsemi : ∀ c ∈ p, ¬c = ';' := fun c hc => (hp c hc).2.2.1
  have hsplit : splitparams p = (p, []) := by
    simp only [splitparams]
    by_cases hcp : p.contains '/' = true
    · rw [if_pos hcp]
      rw [contains_false ';' _ (fun c hc => hsemi c
        (List.mem_reverse.mp (List.takeWhile_subset _ (List.mem_reverse.mp hc))))]
      rw [if_neg (by simp)]
    · rw [if_neg hcp]
      rw [contains_false ';' p hsemi]
      rw [if_neg (by simp)]
  have hm1 : ¬('[' ∈ n) := fun hm => (hn _ hm).2.2.2.1 rfl
  have hm2 : ¬(']' ∈ n) := fun hm => (hn _ hm).2.2.2.2.1 rfl
  unfold urlparseE
  simp only [hfilter, hpre]
  rw [if_pos (show (decide ((c0 :: s0).length <
      (c0 :: s0 ++ ':' :: '/' :: '/' :: (n ++ (p ++ '?' :: (q ++ '#' :: f)))).length) &&
      !(c0 :: s0).isEmpty && isAsciiAlpha c0 && (c0 :: s0).all isSchemeChar) = true
    from by simp [hlen, hc0, List.all_eq_true.mpr hs])]
  simp only [hdrop, hlow]
  simp only [htake2, hdrop2]
  rw [if_neg (by simp [hnb1, hnb2, hm1, hm2])]
  simp only [hfrag1, hfrag2, hfrag3, hpq1, hpq2, hpq3, hsplit]
  simp [hpq2, hpq3, hsplit]

theorem urlunparseL_eval (s n p q f : List Char) (hs0 : s ≠ []) (hn0 : n ≠ [])
    (hp0 : p = [] ∨ ∃ t, p = '/' :: t) (hq0 : q ≠ []) (hf0 : f ≠ []) :
    urlunparseL ⟨s, n, p, [], q, f⟩ =
      s ++ ':' :: '/' :: '/' :: (n ++ (p ++ ('?' :: (q ++ ('#' :: f))))) := by
  have hsE : s.isEmpty = false := by
    cases s with
    | nil => exact absurd rfl hs0
    | cons a t => rfl
  have hnE : n.isEmpty = false := by
    cases n with
    | nil => exact absurd rfl hn0
    | cons a t => rfl
  have hqE : q.isEmpty = false := by
    cases q with
    | nil => exact absurd rfl hq0
    | cons a t => rfl
  have hfE : f.isEmpty = false := by
    cases f with
    | nil => exact absurd rfl hf0
    | cons a t => rfl
  unfold urlunparseL
  rcases hp0 with rfl | ⟨t, rfl⟩
  · simp [hsE, hnE, hqE, hfE, List.append_assoc]
  · simp [hsE, hnE, hqE, hfE, List.append_assoc]

set_option maxHeartbeats 1000000 in
/-- C6 (amended).  For well-behaved URLs — a lowercase alphabetic scheme, a
nonempty netloc free of `/?#[]`, a path that is empty or `/`-rooted and free
of `?#;`, a nonempty query of nonempty `key=value` pairs over characters
`urlencode` passes through verbatim, with distinct keys none of which is
`data`, and a nonempty fragment — embedding preserves the scheme, netloc,
path, every existing query parameter in order, and the fragment, and appends
`data=<quote_plus(token)>` as the last parameter.  (In general the claim is
false: parameters with blank values are silently dropped — see the
counterexample — and duplicate keys are collapsed.) -/
theorem C6_embed_preserves (c0 : Char) (s0 n p f : List Char)
    (qs : List (List Char × List Char)) (tok : String)
    (hc0 : isAsciiAlpha c0 = true)
    (hs : ∀ c ∈ c0 :: s0, isSchemeChar c = true)
    (hlow : (c0 :: s0).map asciiLower = c0 :: s0)
    (hn0 : n ≠ [])
    (hn : ∀ c ∈ n, ¬c = '/' ∧ ¬c = '?' ∧ ¬c = '#' ∧ ¬c = '[' ∧ ¬c = ']' ∧
      ¬c = Char.ofNat 9 ∧ ¬c = Char.ofNat 13 ∧ ¬c = Char.ofNat 10)
    (hp : ∀ c ∈ p, ¬c = '?' ∧ ¬c = '#' ∧ ¬c = ';' ∧ ¬c = Char.ofNat 9 ∧
      ¬c = Char.ofNat 13 ∧ ¬c = Char.ofNat 10)
    (hp0 : p = [] ∨ ∃ t, p = '/' :: t)
    (hf0 : f ≠ [])
    (hf : ∀ c ∈ f, ¬c = Char.ofNat 9 ∧ ¬c = Char.ofNat 13 ∧ ¬c = Char.ofNat 10)
    (hqs0 : qs ≠ [])
    (hq : ∀ kv ∈ qs, kv.1 ≠ [] ∧ kv.2 ≠ [] ∧ (∀ c ∈ kv.1, isAlwaysSafe c = true) ∧
      (∀ c ∈ kv.2, isAlwaysSafe c = true) ∧ ¬kv.1 = "data".data)
    (hnd : qs.Pairwise (fun a b => ¬a.1 = b.1)) :
    embed_payload_in_url
        ⟨(c0 :: s0) ++ ':' :: '/' :: '/' ::
          (n ++ (p ++ ('?' :: (queryString qs ++ ('#' :: f)))))⟩ tok =
      Except.ok ⟨(c0 :: s0) ++ ':' :: '/' :: '/' ::
        (n ++ (p ++ ('?' :: ((queryString qs ++ '&' ::
          ("data".data ++ '=' :: quotePlusL tok.data)) ++ ('#' :: f)))))⟩ := by
  have hqc : ∀ c ∈ queryString qs,
      ¬c = '#' ∧ ¬c = Char.ofNat 9 ∧ ¬c = Char.ofNat 13 ∧ ¬c = Char.ofNat 10 := by
    intro c hc
    rcases queryString_chars qs
        (fun kv hkv => ⟨(hq kv hkv).2.2.1, (hq kv hkv).2.2.2.1⟩) c hc with h | h | h
    · obtain ⟨_, _, _, _, hh, _, _, _, h9, h13, h10⟩ := alwaysSafe_facts c h
      exact ⟨hh, h9, h13, h10⟩
    · subst h
      exact ⟨by decide, by decide, by decide, by decide⟩
    · subst h
      exact ⟨by decide, by decide, by decide, by decide⟩
  unfold embed_payload_in_url
  rw [show (String.mk ((c0 :: s0) ++ ':' :: '/' :: '/' ::
      (n ++ (p ++ ('?' :: (queryString qs ++ ('#' :: f))))))).data =
      (c0 :: s0) ++ ':' :: '/' :: '/' :: (n ++ (p ++ ('?' :: (queryString qs ++ ('#' :: f)))))
    from rfl]
  rw [urlparseE_eval c0 s0 n p (queryString qs) f hc0 hs hlow hn hp hp0 hqc hf]
  show Except.ok (String.mk (urlunparseL ⟨c0 :: s0, n, p, [],
    urlencodeL (dictSet (dictOfPairs (parse_qslL (queryString qs))) "data".data tok.data),
    f⟩)) = _
  rw [parse_qslL_queryString qs (fun kv hkv =>
    ⟨(hq kv hkv).1, (hq kv hkv).2.1, (hq kv hkv).2.2.1, (hq kv hkv).2.2.2.1⟩)]
  rw [dictOfPairs_nodup qs hnd]
  rw [dictSet_append qs "data".data tok.data (fun kv hkv => (hq kv hkv).2.2.2.2)]
  rw [urlencodeL_safe_append qs tok.data hqs0 (fun kv hkv =>
    ⟨(hq kv hkv).2.2.1, (hq kv hkv).2.2.2.1⟩)]
  rw [urlunparseL_eval (c0 :: s0) n p _ f (by simp) hn0 hp0 (by simp) hf0]

/-- Witness for C6's amended statement on `http://h/p?a=1#z` with token
`T=` (whose `=` is percent-encoded by `urlencode`). -/
theorem C6_embed_preserves_witness :
    embed_payload_in_url "http://h/p?a=1#z" "T=" =
      Except.ok "http://h/p?a=1&data=T%3D#z" :=
  C6_embed_preserves 'h' "ttp".data "h".data "/p".data "z".data
    [("a".data, "1".data)] "T="
    (by decide) (by decide) (by decide) (by simp) (by decide) (by decide)
    (Or.inr ⟨"p".data, rfl⟩) (by simp) (by decide) (by simp) (by decide)
    (List.pairwise_singleton _ _)

/-- C6.  Embedding is not preservation in general: in
`http://h/p?a=&b=1` the parameter `a` (blank value) exists, but
`parse_qsl`'s default drops blank values, so the embedded URL
`http://h/p?b=1&data=T` has lost it — contradicting "preserving … all other
existing query parameters". -/
theorem C6_counterexample :
    embed_payload_in_url "http://h/p?a=&b=1" "T" =
      Except.ok "http://h/p?b=1&data=T" ∧
    parse_qslL "a=&b=1".data = [("b".data, "1".data)] :=
  ⟨rfl, rfl⟩

end QRSpec
